import Mathlib

/-!
Verification of the Tsukuyomi v2 honey endpoint (`src/v2/tsukuyomi-v2.py`).

Shallow embedding of the core of the program:
* the token codec (`make_token` / `parse_token`), including the base64url
  layer, the UTF-8 layer and the JSON layer used by the Python code;
* the token-bucket rate limiter (`allow_request`);
* the hourly budget tracker (`within_hourly_budget`);
* the bot scorer (`bot_score`);
* the traversal generator (the child-link loop of `render_honey`);
* the admission / parse / record control flow of the two routes
  (`index` and `honey`).

Modelling conventions:
* Python strings are modelled as `List Char` (abbreviated `Str`);
  byte strings as `List Nat` with every element below 256.
* Python `float` time values are modelled as `ℚ`; all the concrete claim
  scenarios use dyadic values on which binary floating point is exact.
* The HMAC-SHA256 signature (`sign` in the source) and the SHA-256 hex
  digest used for branch seeds are cryptographic primitives of the Python
  standard library, not code of this repository; they are modelled as
  function parameters (`sign`, `sha`).  Every theorem below holds for an
  arbitrary such function, and concrete witnesses instantiate them with
  simple concrete functions.
-/

/-- Python `str` is modelled as a list of unicode scalar values. -/
abbrev Str := List Char

/-- Build a `Char` from a code point, failing on invalid scalar values
(surrogates and values above 0x10FFFF), as Python's codecs do. -/
def mkChar? (n : Nat) : Option Char :=
  if h : n.isValidChar then some (Char.ofNatAux n h) else none

theorem mkChar?_toNat (c : Char) : mkChar? c.toNat = some c := by
  have h : c.toNat.isValidChar := c.valid
  simp only [mkChar?, dif_pos h]
  congr 1

/-- Decimal digit character (argument taken mod 10). -/
def digitChar : Nat → Char
  | 0 => '0' | 1 => '1' | 2 => '2' | 3 => '3' | 4 => '4'
  | 5 => '5' | 6 => '6' | 7 => '7' | 8 => '8' | _ => '9'

/-- Lower-case hexadecimal digit character, as emitted by `json.dumps`
for `\uXXXX` escapes. -/
def hexDigitChar : Nat → Char
  | 0 => '0' | 1 => '1' | 2 => '2' | 3 => '3' | 4 => '4'
  | 5 => '5' | 6 => '6' | 7 => '7' | 8 => '8' | 9 => '9'
  | 10 => 'a' | 11 => 'b' | 12 => 'c' | 13 => 'd' | 14 => 'e' | _ => 'f'

/-- Numeric value of a decimal digit character. -/
def digitVal (c : Char) : Nat := c.toNat - 48

/-- Decimal representation of a natural number, most significant digit
first (the digits of Python's `str(n)` / `repr(n)`). -/
def natLit (n : Nat) : Str :=
  if n < 10 then [digitChar n]
  else natLit (n / 10) ++ [digitChar (n % 10)]
decreasing_by exact Nat.div_lt_self (by omega) (by omega)

/-- Decimal representation of a Python `int` (`str(i)`), with a leading
minus sign for negatives. -/
def intLit (i : Int) : Str :=
  if i < 0 then '-' :: natLit (-i).toNat else natLit i.toNat

theorem digitChar_isDigit : ∀ k, k < 10 → (digitChar k).isDigit = true := by decide

theorem digitVal_digitChar : ∀ k, k < 10 → digitVal (digitChar k) = k := by decide

theorem natLit_ne_nil (n : Nat) : natLit n ≠ [] := by
  rw [natLit]
  split <;> simp

theorem natLit_all_digits (n : Nat) : ∀ c ∈ natLit n, c.isDigit = true := by
  induction n using Nat.strong_induction_on with
  | _ n ih =>
    rw [natLit]
    by_cases h : n < 10
    · rw [if_pos h]
      intro c hc
      simp only [List.mem_singleton] at hc
      exact hc ▸ digitChar_isDigit n h
    · rw [if_neg h]
      intro c hc
      rcases List.mem_append.mp hc with h1 | h2
      · exact ih (n / 10) (Nat.div_lt_self (by omega) (by omega)) c h1
      · simp only [List.mem_singleton] at h2
        exact h2 ▸ digitChar_isDigit (n % 10) (Nat.mod_lt _ (by omega))

/-- Accumulating decimal parser: consume leading digit characters,
folding them into `acc`, and return the remainder. -/
def parseDigitsAcc (acc : Nat) : Str → Nat × Str
  | [] => (acc, [])
  | c :: rest =>
    if c.isDigit then parseDigitsAcc (acc * 10 + digitVal c) rest
    else (acc, c :: rest)

theorem parseDigitsAcc_append (l : Str) (hl : ∀ c ∈ l, c.isDigit = true) :
    ∀ acc rest, (rest = [] ∨ ∃ c rest', rest = c :: rest' ∧ c.isDigit = false) →
    parseDigitsAcc acc (l ++ rest) =
      (l.foldl (fun a c => a * 10 + digitVal c) acc, rest) := by
  induction l with
  | nil =>
    intro acc rest hrest
    rcases hrest with h | ⟨c, rest', rfl, hc⟩
    · simp [h, parseDigitsAcc]
    · simp [parseDigitsAcc, hc]
  | cons c l ih =>
    intro acc rest hrest
    have hc : c.isDigit = true := hl c (List.mem_cons_self c l)
    simp only [List.cons_append, parseDigitsAcc, hc, if_true, List.foldl_cons]
    exact ih (fun x hx => hl x (List.mem_cons_of_mem c hx)) _ rest hrest

theorem foldl_natLit (n : Nat) : ∀ acc,
    (natLit n).foldl (fun a c => a * 10 + digitVal c) acc =
      acc * 10 ^ (natLit n).length + n := by
  induction n using Nat.strong_induction_on with
  | _ n ih =>
    intro acc
    rw [natLit]
    by_cases h : n < 10
    · rw [if_pos h]
      simp [List.foldl, digitVal_digitChar n h]
    · rw [if_neg h]
      rw [List.foldl_append, List.length_append]
      rw [ih (n / 10) (Nat.div_lt_self (by omega) (by omega)) acc]
      simp only [List.foldl, List.length_singleton]
      rw [digitVal_digitChar (n % 10) (Nat.mod_lt _ (by omega))]
      rw [pow_add, pow_one]
      ring_nf
      omega

theorem parseDigitsAcc_natLit (n : Nat) (rest : Str)
    (hrest : rest = [] ∨ ∃ c rest', rest = c :: rest' ∧ c.isDigit = false) :
    parseDigitsAcc 0 (natLit n ++ rest) = (n, rest) := by
  rw [parseDigitsAcc_append (natLit n) (natLit_all_digits n) 0 rest hrest]
  rw [foldl_natLit]
  simp

/-! ### base64url (the `base64.urlsafe_b64encode` / `urlsafe_b64decode` layer) -/

/-- Character of the base64url alphabet for a sextet value below 64. -/
def b64char (n : Nat) : Char :=
  if n < 26 then Char.ofNat (65 + n)
  else if n < 52 then Char.ofNat (97 + (n - 26))
  else if n < 62 then Char.ofNat (48 + (n - 52))
  else if n = 62 then '-' else '_'

/-- Sextet value of a base64url character, `none` outside the alphabet. -/
def b64val (c : Char) : Option Nat :=
  if 65 ≤ c.toNat ∧ c.toNat ≤ 90 then some (c.toNat - 65)
  else if 97 ≤ c.toNat ∧ c.toNat ≤ 122 then some (c.toNat - 97 + 26)
  else if 48 ≤ c.toNat ∧ c.toNat ≤ 57 then some (c.toNat - 48 + 52)
  else if c = '-' then some 62
  else if c = '_' then some 63
  else none

/-- `base64.urlsafe_b64encode`: bytes to padded base64url characters. -/
def b64encodePadded : List Nat → Str
  | [] => []
  | [a] => [b64char (a / 4), b64char (a % 4 * 16), '=', '=']
  | [a, b] => [b64char (a / 4), b64char (a % 4 * 16 + b / 16), b64char (b % 16 * 4), '=']
  | a :: b :: c :: rest =>
    b64char (a / 4) :: b64char (a % 4 * 16 + b / 16) ::
      b64char (b % 16 * 4 + c / 64) :: b64char (c % 64) :: b64encodePadded rest

/-- `base64.urlsafe_b64decode` on a correctly padded input: characters to
bytes, `none` on a malformed input. -/
def b64decodePadded : Str → Option (List Nat)
  | [] => some []
  | a :: b :: c :: d :: rest =>
    if rest = [] ∧ c = '=' ∧ d = '=' then do
      let x ← b64val a
      let y ← b64val b
      pure [x * 4 + y / 16]
    else if rest = [] ∧ d = '=' then do
      let x ← b64val a
      let y ← b64val b
      let z ← b64val c
      pure [x * 4 + y / 16, y % 16 * 16 + z / 4]
    else do
      let x ← b64val a
      let y ← b64val b
      let z ← b64val c
      let w ← b64val d
      let tail ← b64decodePadded rest
      pure ((x * 4 + y / 16) :: (y % 16 * 16 + z / 4) :: (z % 4 * 64 + w) :: tail)
  | _ => none

/-- `str.rstrip("=")`: drop trailing padding characters. -/
def rstripEq (l : Str) : Str := (l.reverse.dropWhile (fun c => c = '=')).reverse

/-- `blob + "=" * (-len(blob) % 4)`: restore base64 padding. -/
def padEq (l : Str) : Str := l ++ List.replicate ((4 - l.length % 4) % 4) '='

theorem b64val_b64char : ∀ n, n < 64 → b64val (b64char n) = some n := by decide

theorem b64char_ne_eq : ∀ n, n < 64 → b64char n ≠ '=' := by decide

theorem b64char_ne_dot : ∀ n, n < 64 → b64char n ≠ '.' := by decide

theorem rstripEq_cons (x : Char) (l : Str) (hx : x ≠ '=') :
    rstripEq (x :: l) = x :: rstripEq l := by
  unfold rstripEq
  rw [List.reverse_cons, List.dropWhile_append]
  by_cases h : l.reverse.dropWhile (fun c => c = '=') = []
  · simp [h, hx]
  · simp [h]

theorem rstripEq_mem (x : Char) (l : Str) (hx : x ∈ rstripEq l) : x ∈ l := by
  unfold rstripEq at hx
  rw [List.mem_reverse] at hx
  have := (List.dropWhile_sublist (l := l.reverse) (p := fun c => c = '=')).mem hx
  rwa [List.mem_reverse] at this

theorem padEq_quad (a b c d : Char) (l : Str) :
    padEq (a :: b :: c :: d :: l) = a :: b :: c :: d :: padEq l := by
  unfold padEq
  simp only [List.length_cons, List.cons_append]
  have : (4 - (l.length + 1 + 1 + 1 + 1) % 4) % 4 = (4 - l.length % 4) % 4 := by omega
  rw [this]

/-- Round trip of the base64url layer, padding stripped and restored as in
`make_token` and `parse_token`. -/
theorem b64_roundtrip : ∀ bytes : List Nat, (∀ x ∈ bytes, x < 256) →
    b64decodePadded (padEq (rstripEq (b64encodePadded bytes))) = some bytes := by
  intro bytes
  induction bytes using b64encodePadded.induct with
  | case1 =>
    intro _
    rfl
  | case2 a =>
    intro h
    have ha : a < 256 := h a (by simp)
    have h1 : a / 4 < 64 := by omega
    have h2 : a % 4 * 16 < 64 := by omega
    rw [b64encodePadded]
    rw [rstripEq_cons _ _ (b64char_ne_eq _ h1), rstripEq_cons _ _ (b64char_ne_eq _ h2)]
    have : rstripEq ['=', '='] = [] := by rfl
    rw [this]
    show b64decodePadded (padEq [b64char (a / 4), b64char (a % 4 * 16)]) = _
    have : padEq [b64char (a / 4), b64char (a % 4 * 16)] =
        [b64char (a / 4), b64char (a % 4 * 16), '=', '='] := by
      unfold padEq
      rfl
    rw [this]
    rw [b64decodePadded]
    simp only [if_pos (by exact ⟨rfl, rfl, rfl⟩ : ([] : Str) = [] ∧ '=' = '=' ∧ '=' = '=')]
    rw [b64val_b64char _ h1, b64val_b64char _ h2]
    show some [a / 4 * 4 + a % 4 * 16 / 16] = some [a]
    congr 2
    omega
  | case3 a b =>
    intro h
    have ha : a < 256 := h a (by simp)
    have hb : b < 256 := h b (by simp)
    have h1 : a / 4 < 64 := by omega
    have h2 : a % 4 * 16 + b / 16 < 64 := by omega
    have h3 : b % 16 * 4 < 64 := by omega
    rw [b64encodePadded]
    rw [rstripEq_cons _ _ (b64char_ne_eq _ h1), rstripEq_cons _ _ (b64char_ne_eq _ h2),
      rstripEq_cons _ _ (b64char_ne_eq _ h3)]
    have : rstripEq ['='] = [] := by rfl
    rw [this]
    have : padEq [b64char (a / 4), b64char (a % 4 * 16 + b / 16), b64char (b % 16 * 4)] =
        [b64char (a / 4), b64char (a % 4 * 16 + b / 16), b64char (b % 16 * 4), '='] := by
      unfold padEq
      rfl
    rw [this]
    rw [b64decodePadded]
    rw [if_neg (by simp [b64char_ne_eq _ h3])]
    rw [if_pos ⟨rfl, rfl⟩]
    rw [b64val_b64char _ h1, b64val_b64char _ h2, b64val_b64char _ h3]
    show some [_, _] = some [a, b]
    congr 3
    · omega
    · omega
  | case4 a b c rest ih =>
    intro h
    have ha : a < 256 := h a (by simp)
    have hb : b < 256 := h b (by simp)
    have hc : c < 256 := h c (by simp)
    have hrest : ∀ x ∈ rest, x < 256 := fun x hx => h x (by simp [hx])
    have h1 : a / 4 < 64 := by omega
    have h2 : a % 4 * 16 + b / 16 < 64 := by omega
    have h3 : b % 16 * 4 + c / 64 < 64 := by omega
    have h4 : c % 64 < 64 := by omega
    rw [b64encodePadded]
    rw [rstripEq_cons _ _ (b64char_ne_eq _ h1), rstripEq_cons _ _ (b64char_ne_eq _ h2),
      rstripEq_cons _ _ (b64char_ne_eq _ h3), rstripEq_cons _ _ (b64char_ne_eq _ h4)]
    rw [padEq_quad]
    rw [b64decodePadded]
    rw [if_neg (by simp [b64char_ne_eq _ h3])]
    rw [if_neg (by simp [b64char_ne_eq _ h4])]
    rw [b64val_b64char _ h1, b64val_b64char _ h2, b64val_b64char _ h3, b64val_b64char _ h4]
    rw [ih hrest]
    show some (_ :: _ :: _ :: rest) = some (a :: b :: c :: rest)
    congr 4
    · omega
    · omega
    · omega

/-! ### UTF-8 (the `str.encode("utf-8")` / `bytes.decode("utf-8")` layer) -/

/-- UTF-8 encoding of a single unicode scalar value. -/
def utf8EncodeChar (c : Char) : List Nat :=
  if c.toNat < 0x80 then [c.toNat]
  else if c.toNat < 0x800 then [0xC0 + c.toNat / 64, 0x80 + c.toNat % 64]
  else if c.toNat < 0x10000 then
    [0xE0 + c.toNat / 4096, 0x80 + c.toNat / 64 % 64, 0x80 + c.toNat % 64]
  else
    [0xF0 + c.toNat / 262144, 0x80 + c.toNat / 4096 % 64,
      0x80 + c.toNat / 64 % 64, 0x80 + c.toNat % 64]

/-- `str.encode("utf-8")`. -/
def utf8Encode (s : Str) : List Nat := s.flatMap utf8EncodeChar

/-- Decode one UTF-8 sequence starting with byte `b`, the following bytes
being `rest`; strict decoding, rejecting stray continuation bytes,
truncated sequences, overlong encodings, surrogates and values above
0x10FFFF, as Python's strict UTF-8 codec does. -/
def utf8DecodeChar (b : Nat) (rest : List Nat) : Option (Char × List Nat) :=
  if b < 0x80 then (mkChar? b).map (fun c => (c, rest))
  else if b < 0xC0 then none
  else if b < 0xE0 then
    match rest with
    | b2 :: rest2 =>
      if 0x80 ≤ b2 ∧ b2 < 0xC0 then
        if (b - 0xC0) * 64 + (b2 - 0x80) < 0x80 then none
        else (mkChar? ((b - 0xC0) * 64 + (b2 - 0x80))).map (fun c => (c, rest2))
      else none
    | _ => none
  else if b < 0xF0 then
    match rest with
    | b2 :: b3 :: rest3 =>
      if (0x80 ≤ b2 ∧ b2 < 0xC0) ∧ (0x80 ≤ b3 ∧ b3 < 0xC0) then
        if (b - 0xE0) * 4096 + (b2 - 0x80) * 64 + (b3 - 0x80) < 0x800 then none
        else (mkChar? ((b - 0xE0) * 4096 + (b2 - 0x80) * 64 + (b3 - 0x80))).map
          (fun c => (c, rest3))
      else none
    | _ => none
  else if b < 0xF8 then
    match rest with
    | b2 :: b3 :: b4 :: rest4 =>
      if (0x80 ≤ b2 ∧ b2 < 0xC0) ∧ (0x80 ≤ b3 ∧ b3 < 0xC0) ∧ (0x80 ≤ b4 ∧ b4 < 0xC0) then
        if (b - 0xF0) * 262144 + (b2 - 0x80) * 4096 + (b3 - 0x80) * 64 + (b4 - 0x80) < 0x10000
        then none
        else (mkChar? ((b - 0xF0) * 262144 + (b2 - 0x80) * 4096 + (b3 - 0x80) * 64 + (b4 - 0x80))).map
          (fun c => (c, rest4))
      else none
    | _ => none
  else none

/-- Fuelled UTF-8 decoding loop.  Each step consumes at least one byte, so
fuel equal to the input length (as supplied by `utf8Decode`) never runs
out; the fuel only serves as a termination measure. -/
def utf8DecodeFuel : Nat → List Nat → Option Str
  | _, [] => some []
  | 0, _ :: _ => none
  | fuel + 1, b :: rest =>
    match utf8DecodeChar b rest with
    | none => none
    | some (c, rest') => (utf8DecodeFuel fuel rest').map (fun t => c :: t)

/-- `bytes.decode("utf-8")`. -/
def utf8Decode (l : List Nat) : Option Str := utf8DecodeFuel l.length l

theorem utf8EncodeChar_lt_256 (c : Char) : ∀ x ∈ utf8EncodeChar c, x < 256 := by
  have hv : c.toNat.isValidChar := c.valid
  have hval : c.toNat < 0x110000 := by
    rcases hv with h | ⟨h1, h2⟩ <;> omega
  intro x hx
  unfold utf8EncodeChar at hx
  split at hx
  · simp only [List.mem_singleton] at hx
    omega
  · split at hx
    · simp only [List.mem_cons, List.not_mem_nil, or_false] at hx
      rcases hx with rfl | rfl <;> omega
    · split at hx
      · simp only [List.mem_cons, List.not_mem_nil, or_false] at hx
        rcases hx with rfl | rfl | rfl <;> omega
      · simp only [List.mem_cons, List.not_mem_nil, or_false] at hx
        rcases hx with rfl | rfl | rfl | rfl <;> omega

theorem utf8Encode_lt_256 (s : Str) : ∀ x ∈ utf8Encode s, x < 256 := by
  intro x hx
  unfold utf8Encode at hx
  rw [List.mem_flatMap] at hx
  obtain ⟨c, _, hmem⟩ := hx
  exact utf8EncodeChar_lt_256 c x hmem

theorem utf8EncodeChar_ne_nil (c : Char) : utf8EncodeChar c ≠ [] := by
  unfold utf8EncodeChar
  split <;> [skip; split] <;> [skip; skip; split] <;> simp

theorem utf8DecodeChar_encodeChar (c : Char) (rest : List Nat) :
    ∃ b t, utf8EncodeChar c = b :: t ∧ utf8DecodeChar b (t ++ rest) = some (c, rest) := by
  have hv : c.toNat.isValidChar := c.valid
  have hval : c.toNat < 0xD800 ∨ (0xDFFF < c.toNat ∧ c.toNat < 0x110000) := hv
  unfold utf8EncodeChar
  by_cases h1 : c.toNat < 0x80
  · rw [if_pos h1]
    refine ⟨_, _, rfl, ?_⟩
    unfold utf8DecodeChar
    rw [if_pos h1, mkChar?_toNat]
    rfl
  · rw [if_neg h1]
    by_cases h2 : c.toNat < 0x800
    · rw [if_pos h2]
      refine ⟨_, _, rfl, ?_⟩
      unfold utf8DecodeChar
      rw [if_neg (by omega), if_neg (by omega), if_pos (by omega)]
      show (if 0x80 ≤ 0x80 + c.toNat % 64 ∧ 0x80 + c.toNat % 64 < 0xC0 then _ else _) = _
      rw [if_pos (by constructor <;> omega)]
      have hn : (0xC0 + c.toNat / 64 - 0xC0) * 64 + (0x80 + c.toNat % 64 - 0x80) = c.toNat := by
        omega
      rw [hn, if_neg (by omega), mkChar?_toNat]
      rfl
    · rw [if_neg h2]
      by_cases h3 : c.toNat < 0x10000
      · rw [if_pos h3]
        refine ⟨_, _, rfl, ?_⟩
        unfold utf8DecodeChar
        rw [if_neg (by omega), if_neg (by omega), if_neg (by omega), if_pos (by omega)]
        show (if (0x80 ≤ 0x80 + c.toNat / 64 % 64 ∧ 0x80 + c.toNat / 64 % 64 < 0xC0) ∧
          0x80 ≤ 0x80 + c.toNat % 64 ∧ 0x80 + c.toNat % 64 < 0xC0 then _ else _) = _
        rw [if_pos (by refine ⟨⟨?_, ?_⟩, ?_, ?_⟩ <;> omega)]
        have hn : (0xE0 + c.toNat / 4096 - 0xE0) * 4096 + (0x80 + c.toNat / 64 % 64 - 0x80) * 64
            + (0x80 + c.toNat % 64 - 0x80) = c.toNat := by
          omega
        rw [hn, if_neg (by omega), mkChar?_toNat]
        rfl
      · rw [if_neg h3]
        have hup : c.toNat < 0x110000 := by omega
        refine ⟨_, _, rfl, ?_⟩
        unfold utf8DecodeChar
        rw [if_neg (by omega), if_neg (by omega), if_neg (by omega), if_neg (by omega),
          if_pos (by omega)]
        show (if (0x80 ≤ 0x80 + c.toNat / 4096 % 64 ∧ 0x80 + c.toNat / 4096 % 64 < 0xC0) ∧
          (0x80 ≤ 0x80 + c.toNat / 64 % 64 ∧ 0x80 + c.toNat / 64 % 64 < 0xC0) ∧
          0x80 ≤ 0x80 + c.toNat % 64 ∧ 0x80 + c.toNat % 64 < 0xC0 then _ else _) = _
        rw [if_pos (by refine ⟨⟨?_, ?_⟩, ⟨?_, ?_⟩, ?_, ?_⟩ <;> omega)]
        have hn : (0xF0 + c.toNat / 262144 - 0xF0) * 262144
            + (0x80 + c.toNat / 4096 % 64 - 0x80) * 4096
            + (0x80 + c.toNat / 64 % 64 - 0x80) * 64 + (0x80 + c.toNat % 64 - 0x80) = c.toNat := by
          omega
        rw [hn, if_neg (by omega), mkChar?_toNat]
        rfl

theorem utf8DecodeFuel_encode (s : Str) : ∀ fuel, s.length ≤ fuel →
    utf8DecodeFuel fuel (utf8Encode s) = some s := by
  induction s with
  | nil =>
    intro fuel _
    unfold utf8Encode
    rw [List.flatMap_nil]
    cases fuel <;> rfl
  | cons c s ih =>
    intro fuel hfuel
    obtain ⟨f, rfl⟩ : ∃ f, fuel = f + 1 := by
      cases fuel
      · simp at hfuel
      · exact ⟨_, rfl⟩
    obtain ⟨b, t, henc, hdec⟩ := utf8DecodeChar_encodeChar c (utf8Encode s)
    unfold utf8Encode
    rw [List.flatMap_cons, henc]
    show utf8DecodeFuel (f + 1) (b :: (t ++ utf8Encode s)) = _
    rw [utf8DecodeFuel, hdec]
    show (utf8DecodeFuel f (utf8Encode s)).map (fun t => c :: t) = some (c :: s)
    rw [ih f (by simpa using hfuel)]
    rfl

theorem length_le_utf8Encode (s : Str) : s.length ≤ (utf8Encode s).length := by
  induction s with
  | nil => simp [utf8Encode]
  | cons c s ih =>
    unfold utf8Encode at *
    rw [List.flatMap_cons, List.length_append, List.length_cons]
    have := utf8EncodeChar_ne_nil c
    have h1 : 1 ≤ (utf8EncodeChar c).length := by
      cases h : utf8EncodeChar c
      · exact absurd h this
      · simp
    omega

/-- Round trip of the UTF-8 layer. -/
theorem utf8_roundtrip (s : Str) : utf8Decode (utf8Encode s) = some s := by
  unfold utf8Decode
  exact utf8DecodeFuel_encode s _ (length_le_utf8Encode s)

/-! ### JSON (the `json.dumps` / `json.loads` layer)

`json.dumps(..., separators=(",", ":"), ensure_ascii=False)` escapes only
`"`, `\` and control characters below 0x20 (with the usual two-character
shorthands); `json.loads` is modelled by a recursive-descent parser over
the JSON grammar.  `\uXXXX` escapes in the surrogate range are rejected
by the model (CPython combines surrogate pairs); serialized payloads
never contain them, as only control characters are `\u`-escaped. -/

/-- JSON values.  Non-integral number literals are kept as their source
text (`jfloat`); the program only ever type-checks them, never computes
with them.  Object member lists keep source order; duplicate keys are
resolved last-wins by `dictGet`, as for a Python `dict`. -/
inductive Json where
  | jnull : Json
  | jbool : Bool → Json
  | jint : Int → Json
  | jfloat : Str → Json
  | jstr : Str → Json
  | jarr : List Json → Json
  | jobj : List (Str × Json) → Json

/-- `dict.get` for a parsed JSON object: the last binding of a key wins,
as in a Python `dict` built by repeated insertion. -/
def dictGet (kvs : List (Str × Json)) (k : Str) : Option Json :=
  match kvs with
  | [] => none
  | (k', v) :: rest =>
    match dictGet rest k with
    | some r => some r
    | none => if k' = k then some v else none

/-- JSON string escaping of one character
(`json.dumps` with `ensure_ascii=False`). -/
def escapeChar (c : Char) : Str :=
  if c = '"' then ['\\', '"']
  else if c = '\\' then ['\\', '\\']
  else if c.toNat < 0x20 then
    if c.toNat = 8 then ['\\', 'b']
    else if c.toNat = 9 then ['\\', 't']
    else if c.toNat = 10 then ['\\', 'n']
    else if c.toNat = 12 then ['\\', 'f']
    else if c.toNat = 13 then ['\\', 'r']
    else ['\\', 'u', '0', '0', hexDigitChar (c.toNat / 16), hexDigitChar (c.toNat % 16)]
  else [c]

/-- JSON string escaping of a string body. -/
def escapeAll (s : Str) : Str := s.flatMap escapeChar

/-- The serialized payload of `make_token`:
`json.dumps` of the dict with keys `s`, `d`, `i`, `c` in that fixed
order, with separators `(",", ":")` and `ensure_ascii=False`. -/
def serializePayload (s : Str) (d i : Int) (c : Str) : Str :=
  ['{', '"', 's', '"', ':', '"'] ++ escapeAll s ++
    ['"', ',', '"', 'd', '"', ':'] ++ intLit d ++
    [',', '"', 'i', '"', ':'] ++ intLit i ++
    [',', '"', 'c', '"', ':', '"'] ++ escapeAll c ++ ['"', '}']

/-- JSON whitespace. -/
def isWs (c : Char) : Bool := c = ' ' ∨ c = '\t' ∨ c = '\n' ∨ c = '\r'

/-- Skip JSON whitespace. -/
def skipWs (l : Str) : Str := l.dropWhile isWs

/-- Value of a hexadecimal digit character (both cases), `none` otherwise. -/
def hexVal (c : Char) : Option Nat :=
  if 48 ≤ c.toNat ∧ c.toNat ≤ 57 then some (c.toNat - 48)
  else if 97 ≤ c.toNat ∧ c.toNat ≤ 102 then some (c.toNat - 97 + 10)
  else if 65 ≤ c.toNat ∧ c.toNat ≤ 70 then some (c.toNat - 65 + 10)
  else none

/-- JSON two-character escape table. -/
def unescapeChar (e : Char) : Option Char :=
  if e = '"' then some '"'
  else if e = '\\' then some '\\'
  else if e = '/' then some '/'
  else if e = 'b' then some (Char.ofNat 8)
  else if e = 'f' then some (Char.ofNat 12)
  else if e = 'n' then some (Char.ofNat 10)
  else if e = 'r' then some (Char.ofNat 13)
  else if e = 't' then some (Char.ofNat 9)
  else none

/-- One step of JSON string-body parsing, positioned after the opening
quote: either the closing quote (`none` payload), one literal character,
or one escape sequence.  Returns the produced character and the
remainder. -/
def parseStringStep (c : Char) (rest : Str) : Option (Option Char × Str) :=
  if c = '"' then some (none, rest)
  else if c = '\\' then
    match rest with
    | [] => none
    | e :: rest1 =>
      if e = 'u' then
        match rest1 with
        | h1 :: h2 :: h3 :: h4 :: rest2 =>
          match hexVal h1, hexVal h2, hexVal h3, hexVal h4 with
          | some v1, some v2, some v3, some v4 =>
            if 0xD800 ≤ v1 * 4096 + v2 * 256 + v3 * 16 + v4 ∧
                v1 * 4096 + v2 * 256 + v3 * 16 + v4 < 0xE000 then none
            else
              match mkChar? (v1 * 4096 + v2 * 256 + v3 * 16 + v4) with
              | some ch => some (some ch, rest2)
              | none => none
          | _, _, _, _ => none
        | _ => none
      else
        match unescapeChar e with
        | some ch => some (some ch, rest1)
        | none => none
  else if c.toNat < 0x20 then none
  else some (some c, rest)

/-- Fuelled JSON string-body parsing loop; each step consumes at least
one character, so fuel equal to the input length never runs out. -/
def parseStringFuel : Nat → Str → Option (Str × Str)
  | _, [] => none
  | 0, _ :: _ => none
  | fuel + 1, c :: rest =>
    match parseStringStep c rest with
    | none => none
    | some (none, rest') => some ([], rest')
    | some (some ch, rest') => (parseStringFuel fuel rest').map (fun p => (ch :: p.1, p.2))

/-- Parse a JSON string body (after the opening quote), returning the
decoded string and the remainder after the closing quote. -/
def parseStringBody (l : Str) : Option (Str × Str) := parseStringFuel l.length l

/-- Leading-zero test for the JSON number grammar (`01` is invalid). -/
def leadingZero : Str → Bool
  | c0 :: c1 :: _ => c0 = '0' && c1.isDigit
  | _ => false

/-- Parse the exponent part of a JSON number, positioned at `e`/`E`. -/
def parseExpPart (l : Str) : Option Str :=
  match l with
  | e :: rest =>
    if e = 'e' ∨ e = 'E' then
      let rest1 := match rest with
        | '+' :: t => t
        | '-' :: t => t
        | _ => rest
      match rest1 with
      | c :: _ => if c.isDigit then some (parseDigitsAcc 0 rest1).2 else none
      | [] => none
    else none
  | [] => none

/-- Parse the fraction-and-exponent tail of a non-integral JSON number,
positioned just after the integer part (at `.`, `e` or `E`). -/
def parseFloatTail (l2 : Str) : Option Str :=
  match (match l2 with
    | '.' :: rest =>
      match rest with
      | c :: _ => if c.isDigit then some (parseDigitsAcc 0 rest).2 else none
      | [] => none
    | _ => some l2) with
  | none => none
  | some l3 =>
    match l3 with
    | c :: _ => if c = 'e' ∨ c = 'E' then parseExpPart l3 else some l3
    | [] => some l3

/-- Parse a JSON number (the head of `l` is `-` or a digit).  Integral
literals produce `jint`; literals with a fraction or exponent part keep
their source text in a `jfloat`. -/
def parseNumber (l : Str) : Option (Json × Str) :=
  let neg : Bool := match l with
    | c :: _ => c = '-'
    | [] => false
  let l1 := if neg then l.tail else l
  match l1 with
  | [] => none
  | c :: _ =>
    if ¬c.isDigit then none
    else if leadingZero l1 then none
    else
      let p := parseDigitsAcc 0 l1
      match p.2 with
      | c2 :: _ =>
        if c2 = '.' ∨ c2 = 'e' ∨ c2 = 'E' then
          match parseFloatTail p.2 with
          | none => none
          | some l4 => some (Json.jfloat (l.take (l.length - l4.length)), l4)
        else some (Json.jint (if neg then -(p.1 : Int) else (p.1 : Int)), p.2)
      | [] => some (Json.jint (if neg then -(p.1 : Int) else (p.1 : Int)), p.2)

/-- Parse the literal `true` (after its first character). -/
def parseTrueLit (rest : Str) : Option (Json × Str) :=
  match rest with
  | c1 :: c2 :: c3 :: r =>
    if c1 = 'r' ∧ c2 = 'u' ∧ c3 = 'e' then some (Json.jbool true, r) else none
  | _ => none

/-- Parse the literal `false` (after its first character). -/
def parseFalseLit (rest : Str) : Option (Json × Str) :=
  match rest with
  | c1 :: c2 :: c3 :: c4 :: r =>
    if c1 = 'a' ∧ c2 = 'l' ∧ c3 = 's' ∧ c4 = 'e' then some (Json.jbool false, r) else none
  | _ => none

/-- Parse the literal `null` (after its first character). -/
def parseNullLit (rest : Str) : Option (Json × Str) :=
  match rest with
  | c1 :: c2 :: c3 :: r =>
    if c1 = 'u' ∧ c2 = 'l' ∧ c3 = 'l' then some (Json.jnull, r) else none
  | _ => none

mutual

/-- Recursive-descent JSON value parser (`json.loads` grammar).  The fuel
decreases on every nested value parse and on every member/element
iteration; `loads` supplies fuel that cannot run out (each fuel unit is
preceded by the consumption of at least one character). -/
def parseValue : Nat → Str → Option (Json × Str)
  | 0, _ => none
  | fuel + 1, l =>
    match skipWs l with
    | [] => none
    | c :: rest => parseValueBody fuel c rest
termination_by fuel _ => (fuel, 0)

/-- Dispatch on the first character of a JSON value. -/
def parseValueBody (fuel : Nat) (c : Char) (rest : Str) : Option (Json × Str) :=
  if c = '"' then (parseStringBody rest).map (fun p => (Json.jstr p.1, p.2))
  else if c = '{' then parseObjBranch fuel rest
  else if c = '[' then parseArrBranch fuel rest
  else if c = 't' then parseTrueLit rest
  else if c = 'f' then parseFalseLit rest
  else if c = 'n' then parseNullLit rest
  else if c = '-' ∨ c.isDigit then parseNumber (c :: rest)
  else none
termination_by (fuel, 9)

/-- Parse an object, positioned after `{`. -/
def parseObjBranch (fuel : Nat) (rest : Str) : Option (Json × Str) :=
  match skipWs rest with
  | c2 :: r2 => if c2 = '}' then some (Json.jobj [], r2) else parseMembers fuel rest []
  | [] => none
termination_by (fuel, 8)

/-- Parse an array, positioned after `[`. -/
def parseArrBranch (fuel : Nat) (rest : Str) : Option (Json × Str) :=
  match skipWs rest with
  | c2 :: r2 => if c2 = ']' then some (Json.jarr [], r2) else parseElems fuel rest []
  | [] => none
termination_by (fuel, 8)

/-- Parse the members of a JSON object, positioned after `{` or `,`. -/
def parseMembers : Nat → Str → List (Str × Json) → Option (Json × Str)
  | 0, _, _ => none
  | fuel + 1, l, acc =>
    match skipWs l with
    | c :: rest => if c = '"' then parseMembersKey (fuel + 1) rest acc else none
    | [] => none
termination_by fuel _ _ => (fuel, 4)

/-- Parse one object member, positioned after the opening quote of its key. -/
def parseMembersKey (fuel : Nat) (rest : Str) (acc : List (Str × Json)) :
    Option (Json × Str) :=
  match parseStringBody rest with
  | none => none
  | some (key, rest2) => parseMembersColon fuel key (skipWs rest2) acc
termination_by (fuel, 3)

/-- Parse the `:` of an object member; the fuel is decremented here,
once per member. -/
def parseMembersColon (fuel : Nat) (key : Str) (r3 : Str) (acc : List (Str × Json)) :
    Option (Json × Str) :=
  match fuel, r3 with
  | _, [] => none
  | 0, _ :: _ => none
  | f + 1, c :: rest3 =>
    if c = ':' then parseMembersValue f key rest3 acc else none
termination_by (fuel, 2)

/-- Parse the value of an object member. -/
def parseMembersValue (f : Nat) (key : Str) (rest3 : Str) (acc : List (Str × Json)) :
    Option (Json × Str) :=
  match parseValue f rest3 with
  | none => none
  | some (v, rest4) => parseMembersAfter f key v (skipWs rest4) acc
termination_by (f, 6)

/-- Continue after one object member: `,` continues, `}` closes. -/
def parseMembersAfter (f : Nat) (key : Str) (v : Json) (r5 : Str)
    (acc : List (Str × Json)) : Option (Json × Str) :=
  match r5 with
  | c :: rest5 =>
    if c = ',' then parseMembers f rest5 (acc ++ [(key, v)])
    else if c = '}' then some (Json.jobj (acc ++ [(key, v)]), rest5)
    else none
  | [] => none
termination_by (f, 5)

/-- Parse the elements of a JSON array, positioned after `[` or `,`. -/
def parseElems : Nat → Str → List Json → Option (Json × Str)
  | 0, _, _ => none
  | fuel + 1, l, acc =>
    match parseValue fuel l with
    | none => none
    | some (v, rest) => parseElemsAfter fuel v (skipWs rest) acc
termination_by fuel _ _ => (fuel, 4)

/-- Continue after one array element: `,` continues, `]` closes. -/
def parseElemsAfter (fuel : Nat) (v : Json) (r : Str) (acc : List Json) :
    Option (Json × Str) :=
  match r with
  | c :: rest2 =>
    if c = ',' then parseElems fuel rest2 (acc ++ [v])
    else if c = ']' then some (Json.jarr (acc ++ [v]), rest2)
    else none
  | [] => none
termination_by (fuel, 5)

end

/-- `json.loads`: parse a complete JSON document (whitespace-tolerant,
rejecting trailing garbage), `none` where Python raises. -/
def loads (l : Str) : Option Json :=
  match parseValue (l.length + 1) l with
  | some (j, rest) => if skipWs rest = [] then some j else none
  | none => none

theorem char_eq_of_toNat {c d : Char} (h : c.toNat = d.toNat) : c = d := by
  apply Char.ext
  exact UInt32.ext h

theorem hexVal_hexDigitChar : ∀ k, k < 16 → hexVal (hexDigitChar k) = some k := by decide

theorem isDigit_ne_dash {c : Char} (h : c.isDigit = true) : (c = '-') = False := by
  simp only [eq_iff_iff, iff_false]
  intro rfl_h
  subst rfl_h
  simp [Char.isDigit] at h

theorem escapeChar_step (c : Char) (tail : Str) :
    ∃ h t, escapeChar c = h :: t ∧ parseStringStep h (t ++ tail) = some (some c, tail) := by
  by_cases h1 : c = '"'
  · subst h1
    exact ⟨_, _, rfl, rfl⟩
  by_cases h2 : c = '\\'
  · subst h2
    exact ⟨_, _, rfl, rfl⟩
  by_cases h3 : c.toNat < 0x20
  · by_cases e8 : c.toNat = 8
    · have hc : c = Char.ofNat 8 := char_eq_of_toNat (by rw [e8]; rfl)
      subst hc
      exact ⟨_, _, rfl, rfl⟩
    by_cases e9 : c.toNat = 9
    · have hc : c = Char.ofNat 9 := char_eq_of_toNat (by rw [e9]; rfl)
      subst hc
      exact ⟨_, _, rfl, rfl⟩
    by_cases e10 : c.toNat = 10
    · have hc : c = Char.ofNat 10 := char_eq_of_toNat (by rw [e10]; rfl)
      subst hc
      exact ⟨_, _, rfl, rfl⟩
    by_cases e12 : c.toNat = 12
    · have hc : c = Char.ofNat 12 := char_eq_of_toNat (by rw [e12]; rfl)
      subst hc
      exact ⟨_, _, rfl, rfl⟩
    by_cases e13 : c.toNat = 13
    · have hc : c = Char.ofNat 13 := char_eq_of_toNat (by rw [e13]; rfl)
      subst hc
      exact ⟨_, _, rfl, rfl⟩
    · -- the `\u00XX` escape
      have henc : escapeChar c =
          '\\' :: 'u' :: '0' :: '0' :: hexDigitChar (c.toNat / 16) ::
            [hexDigitChar (c.toNat % 16)] := by
        unfold escapeChar
        rw [if_neg h1, if_neg h2, if_pos h3, if_neg e8, if_neg e9, if_neg e10,
          if_neg e12, if_neg e13]
      refine ⟨_, _, henc, ?_⟩
      show parseStringStep '\\'
        ('u' :: '0' :: '0' :: hexDigitChar (c.toNat / 16) ::
          hexDigitChar (c.toNat % 16) :: tail) = some (some c, tail)
      unfold parseStringStep
      rw [if_neg (by decide), if_pos rfl]
      show (match hexVal '0', hexVal '0', hexVal (hexDigitChar (c.toNat / 16)),
          hexVal (hexDigitChar (c.toNat % 16)) with
        | some v1, some v2, some v3, some v4 =>
          if 0xD800 ≤ v1 * 4096 + v2 * 256 + v3 * 16 + v4 ∧
              v1 * 4096 + v2 * 256 + v3 * 16 + v4 < 0xE000 then none
          else
            match mkChar? (v1 * 4096 + v2 * 256 + v3 * 16 + v4) with
            | some ch => some (some ch, tail)
            | none => none
        | _, _, _, _ => none) = some (some c, tail)
      rw [hexVal_hexDigitChar _ (by omega), hexVal_hexDigitChar _ (by omega)]
      show (if 0xD800 ≤ 0 * 4096 + 0 * 256 + c.toNat / 16 * 16 + c.toNat % 16 ∧
          0 * 4096 + 0 * 256 + c.toNat / 16 * 16 + c.toNat % 16 < 0xE000 then none
        else
          match mkChar? (0 * 4096 + 0 * 256 + c.toNat / 16 * 16 + c.toNat % 16) with
          | some ch => some (some ch, tail)
          | none => none) = some (some c, tail)
      have hn : 0 * 4096 + 0 * 256 + c.toNat / 16 * 16 + c.toNat % 16 = c.toNat := by
        omega
      rw [hn, if_neg (by omega), mkChar?_toNat]
  · -- plain character
    refine ⟨c, [], ?_, ?_⟩
    · unfold escapeChar
      rw [if_neg h1, if_neg h2, if_neg h3]
    · show parseStringStep c tail = some (some c, tail)
      unfold parseStringStep
      rw [if_neg h1, if_neg h2, if_neg h3]

theorem length_le_escapeAll (s : Str) : s.length ≤ (escapeAll s).length := by
  induction s with
  | nil => simp [escapeAll]
  | cons c s ih =>
    unfold escapeAll at *
    rw [List.flatMap_cons, List.length_append, List.length_cons]
    obtain ⟨h, t, henc, _⟩ := escapeChar_step c []
    rw [henc]
    simp only [List.length_cons]
    omega

theorem parseStringFuel_escape (s : Str) : ∀ fuel rest, s.length + 1 ≤ fuel →
    parseStringFuel fuel (escapeAll s ++ '"' :: rest) = some (s, rest) := by
  induction s with
  | nil =>
    intro fuel rest hfuel
    obtain ⟨f, rfl⟩ : ∃ f, fuel = f + 1 := ⟨fuel - 1, by omega⟩
    show parseStringFuel (f + 1) ('"' :: rest) = some ([], rest)
    rw [parseStringFuel]
    rfl
  | cons c s ih =>
    intro fuel rest hfuel
    obtain ⟨f, rfl⟩ : ∃ f, fuel = f + 1 := ⟨fuel - 1, by omega⟩
    obtain ⟨h, t, henc, hstep⟩ := escapeChar_step c (escapeAll s ++ '"' :: rest)
    have hinput : escapeAll (c :: s) ++ '"' :: rest =
        h :: (t ++ (escapeAll s ++ '"' :: rest)) := by
      unfold escapeAll
      rw [List.flatMap_cons, henc]
      simp [List.append_assoc]
    rw [hinput, parseStringFuel, hstep]
    show (parseStringFuel f (escapeAll s ++ '"' :: rest)).map (fun p => (c :: p.1, p.2)) =
      some (c :: s, rest)
    rw [ih f rest (by simp at hfuel; omega)]
    rfl

theorem parseStringBody_escape (s : Str) (rest : Str) :
    parseStringBody (escapeAll s ++ '"' :: rest) = some (s, rest) := by
  unfold parseStringBody
  apply parseStringFuel_escape
  have h1 := length_le_escapeAll s
  simp only [List.length_append, List.length_cons]
  omega

theorem digit_ne_dash {c : Char} (h : c.isDigit = true) : c ≠ '-' := by
  intro heq
  subst heq
  simp [Char.isDigit] at h

theorem natLit_head (n : Nat) (hn : 0 < n) :
    ∃ d t, 1 ≤ d ∧ d ≤ 9 ∧ natLit n = digitChar d :: t := by
  induction n using Nat.strong_induction_on with
  | _ n ih =>
    rw [natLit]
    by_cases h : n < 10
    · rw [if_pos h]
      exact ⟨n, [], by omega, by omega, rfl⟩
    · rw [if_neg h]
      obtain ⟨d, t, hd1, hd2, heq⟩ := ih (n / 10) (Nat.div_lt_self (by omega) (by omega))
        (by omega)
      exact ⟨d, t ++ [digitChar (n % 10)], hd1, hd2, by rw [heq]; rfl⟩

theorem digitChar_ne_zero : ∀ d, d < 10 → 1 ≤ d → digitChar d ≠ '0' := by decide

theorem leadingZero_natLit (n : Nat) (rest : Str)
    (hrest : rest = [] ∨ ∃ c2 t, rest = c2 :: t ∧ c2.isDigit = false) :
    leadingZero (natLit n ++ rest) = false := by
  by_cases hn : 0 < n
  · obtain ⟨d, t, hd1, hd2, heq⟩ := natLit_head n hn
    rw [heq]
    cases h : t ++ rest with
    | nil =>
      rw [List.cons_append, h]
      rfl
    | cons c2 t2 =>
      rw [List.cons_append, h]
      show (decide (digitChar d = '0') && c2.isDigit) = false
      rw [decide_eq_false (digitChar_ne_zero d (by omega) hd1)]
      rfl
  · have h0 : n = 0 := by omega
    subst h0
    have hz : natLit 0 = ['0'] := by
      rw [natLit]
      rfl
    rw [hz]
    rcases hrest with rfl | ⟨c2, t, rfl, hc2⟩
    · rfl
    · show (decide (('0' : Char) = '0') && c2.isDigit) = false
      rw [hc2, Bool.and_false]

theorem parseNumber_natLit (n : Nat) (rest : Str)
    (hrest : rest = [] ∨ ∃ c2 t, rest = c2 :: t ∧ c2.isDigit = false ∧
      c2 ≠ '.' ∧ c2 ≠ 'e' ∧ c2 ≠ 'E') :
    parseNumber (natLit n ++ rest) = some (Json.jint (n : Int), rest) := by
  have hrest' : rest = [] ∨ ∃ c2 t, rest = c2 :: t ∧ c2.isDigit = false := by
    rcases hrest with h | ⟨c2, t, h1, h2, _⟩
    · exact Or.inl h
    · exact Or.inr ⟨c2, t, h1, h2⟩
  obtain ⟨d0, t0, hd⟩ := List.exists_cons_of_ne_nil (natLit_ne_nil n)
  have hdig : d0.isDigit = true := natLit_all_digits n d0 (by rw [hd]; exact List.mem_cons_self _ _)
  have hl : natLit n ++ rest = d0 :: (t0 ++ rest) := by rw [hd]; rfl
  simp only [parseNumber, hl]
  rw [decide_eq_false (digit_ne_dash hdig)]
  simp only [Bool.false_eq_true, if_false, hdig, not_true, if_neg (by simp : ¬¬true = true)]
  rw [← hl, leadingZero_natLit n rest hrest']
  simp only [Bool.false_eq_true, if_false]
  rw [parseDigitsAcc_natLit n rest hrest']
  rcases hrest with rfl | ⟨c2, t, rfl, hd2, hdot, he, hE⟩
  · rfl
  · show (if c2 = '.' ∨ c2 = 'e' ∨ c2 = 'E' then _ else some (Json.jint (n : Int), c2 :: t)) =
      some (Json.jint (n : Int), c2 :: t)
    rw [if_neg (by simp [hdot, he, hE])]

theorem parseNumber_intLit (i : Int) (rest : Str)
    (hrest : rest = [] ∨ ∃ c2 t, rest = c2 :: t ∧ c2.isDigit = false ∧
      c2 ≠ '.' ∧ c2 ≠ 'e' ∧ c2 ≠ 'E') :
    parseNumber (intLit i ++ rest) = some (Json.jint i, rest) := by
  have hrest' : rest = [] ∨ ∃ c2 t, rest = c2 :: t ∧ c2.isDigit = false := by
    rcases hrest with h | ⟨c2, t, h1, h2, _⟩
    · exact Or.inl h
    · exact Or.inr ⟨c2, t, h1, h2⟩
  unfold intLit
  by_cases hneg : i < 0
  · rw [if_pos hneg]
    have hl : ('-' :: natLit (-i).toNat) ++ rest = '-' :: (natLit (-i).toNat ++ rest) := rfl
    rw [hl]
    simp only [parseNumber]
    show (match natLit (-i).toNat ++ rest with
      | [] => none
      | c :: _ =>
        if ¬c.isDigit then none
        else if leadingZero (natLit (-i).toNat ++ rest) then none
        else
          match (parseDigitsAcc 0 (natLit (-i).toNat ++ rest)).2 with
          | c2 :: _ =>
            if c2 = '.' ∨ c2 = 'e' ∨ c2 = 'E' then
              match parseFloatTail (parseDigitsAcc 0 (natLit (-i).toNat ++ rest)).2 with
              | none => none
              | some l4 =>
                some (Json.jfloat (('-' :: (natLit (-i).toNat ++ rest)).take
                  (('-' :: (natLit (-i).toNat ++ rest)).length - l4.length)), l4)
            else some (Json.jint (-((parseDigitsAcc 0 (natLit (-i).toNat ++ rest)).1 : Int)),
              (parseDigitsAcc 0 (natLit (-i).toNat ++ rest)).2)
          | [] => some (Json.jint (-((parseDigitsAcc 0 (natLit (-i).toNat ++ rest)).1 : Int)),
              (parseDigitsAcc 0 (natLit (-i).toNat ++ rest)).2)) = some (Json.jint i, rest)
    obtain ⟨d0, t0, hd⟩ := List.exists_cons_of_ne_nil (natLit_ne_nil (-i).toNat)
    have hdig : d0.isDigit = true := natLit_all_digits _ d0
      (by rw [hd]; exact List.mem_cons_self _ _)
    have hl2 : natLit (-i).toNat ++ rest = d0 :: (t0 ++ rest) := by rw [hd]; rfl
    rw [hl2]
    show (if ¬d0.isDigit then none
      else if leadingZero (d0 :: (t0 ++ rest)) then none
      else _) = _
    rw [← hl2, leadingZero_natLit _ rest hrest', parseDigitsAcc_natLit _ rest hrest']
    simp only [hdig, not_true, Bool.false_eq_true, if_false]
    have hi : -(((-i).toNat : Int)) = i := by omega
    rcases hrest with rfl | ⟨c2, t, rfl, hd2, hdot, he, hE⟩
    · show some (Json.jint (-(((-i).toNat : Int))), ([] : Str)) = some (Json.jint i, [])
      rw [hi]
    · show (if c2 = '.' ∨ c2 = 'e' ∨ c2 = 'E' then _
        else some (Json.jint (-(((-i).toNat : Int))), c2 :: t)) = some (Json.jint i, c2 :: t)
      rw [if_neg (by simp [hdot, he, hE]), hi]
  · rw [if_neg hneg]
    have := parseNumber_natLit i.toNat rest hrest
    rwa [Int.toNat_of_nonneg (by omega)] at this

theorem skipWs_cons {c : Char} (l : Str) (h : isWs c = false) : skipWs (c :: l) = c :: l := by
  simp [skipWs, List.dropWhile_cons, h]

theorem digitChar_dispatch : ∀ d, d < 10 →
    isWs (digitChar d) = false ∧ digitChar d ≠ '"' ∧ digitChar d ≠ '{' ∧
    digitChar d ≠ '[' ∧ digitChar d ≠ 't' ∧ digitChar d ≠ 'f' ∧ digitChar d ≠ 'n' := by
  decide

theorem parseValue_str (f : Nat) (s rest : Str) :
    parseValue (f + 1) ('"' :: (escapeAll s ++ '"' :: rest)) = some (Json.jstr s, rest) := by
  simp only [parseValue]
  rw [skipWs_cons _ (by decide)]
  show parseValueBody f '"' (escapeAll s ++ '"' :: rest) = _
  simp only [parseValueBody]
  rw [if_pos trivial, parseStringBody_escape]
  rfl

theorem parseValue_int (f : Nat) (i : Int) (c2 : Char) (t : Str)
    (h1 : c2.isDigit = false) (h2 : c2 ≠ '.') (h3 : c2 ≠ 'e') (h4 : c2 ≠ 'E') :
    parseValue (f + 1) (intLit i ++ c2 :: t) = some (Json.jint i, c2 :: t) := by
  have hnum := parseNumber_intLit i (c2 :: t) (Or.inr ⟨c2, t, rfl, h1, h2, h3, h4⟩)
  by_cases hneg : i < 0
  · have hint : intLit i = '-' :: natLit (-i).toNat := by
      unfold intLit
      rw [if_pos hneg]
    rw [hint] at hnum ⊢
    rw [List.cons_append] at hnum ⊢
    simp only [parseValue]
    rw [skipWs_cons _ (by decide)]
    show parseValueBody f '-' (natLit (-i).toNat ++ c2 :: t) = _
    simp only [parseValueBody]
    rw [if_pos (Or.inl trivial)]
    exact hnum
  · have hint : intLit i = natLit i.toNat := by
      unfold intLit
      rw [if_neg hneg]
    rw [hint] at hnum ⊢
    obtain ⟨d0, t0, hd⟩ := List.exists_cons_of_ne_nil (natLit_ne_nil i.toNat)
    have hdig : d0.isDigit = true := natLit_all_digits _ d0
      (by rw [hd]; exact List.mem_cons_self _ _)
    obtain ⟨d, tt, hd1, hd9, hdc⟩ : ∃ d tt, d < 10 ∧ 1 ≤ d + 1 ∧ natLit i.toNat = digitChar d :: tt := by
      by_cases hz : 0 < i.toNat
      · obtain ⟨d, tt, hl, hr, he⟩ := natLit_head i.toNat hz
        exact ⟨d, tt, by omega, by omega, he⟩
      · have : i.toNat = 0 := by omega
        rw [this]
        exact ⟨0, [], by omega, by omega, by rw [natLit]; rfl⟩
    rw [hdc] at hnum ⊢
    rw [List.cons_append] at hnum ⊢
    simp only [parseValue]
    have hdisp := digitChar_dispatch d hd1
    rw [skipWs_cons _ hdisp.1]
    show parseValueBody f (digitChar d) (tt ++ c2 :: t) = _
    simp only [parseValueBody]
    rw [if_neg hdisp.2.1, if_neg hdisp.2.2.1, if_neg hdisp.2.2.2.1, if_neg hdisp.2.2.2.2.1,
      if_neg hdisp.2.2.2.2.2.1, if_neg hdisp.2.2.2.2.2.2,
      if_pos (Or.inr (digitChar_isDigit d hd1))]
    exact hnum

theorem parseValue_step (f : Nat) (l : Str) (c : Char) (rest : Str)
    (hskip : skipWs l = c :: rest) :
    parseValue (f + 1) l = parseValueBody f c rest := by
  simp only [parseValue]
  rw [hskip]

theorem parseValueBody_obj (fuel : Nat) (rest : Str) :
    parseValueBody fuel '{' rest = parseObjBranch fuel rest := by
  simp only [parseValueBody]
  rw [if_neg (by decide), if_pos trivial]

theorem parseObjBranch_nonempty (fuel : Nat) (rest : Str) (c2 : Char) (r2 : Str)
    (hskip : skipWs rest = c2 :: r2) (hne : c2 ≠ '}') :
    parseObjBranch fuel rest = parseMembers fuel rest [] := by
  simp only [parseObjBranch]
  rw [hskip]
  show (if c2 = '}' then some (Json.jobj [], r2) else parseMembers fuel rest []) = _
  rw [if_neg hne]

theorem parseMembers_step (fuel : Nat) (l : Str) (acc : List (Str × Json)) (rest : Str)
    (hskip : skipWs l = '"' :: rest) :
    parseMembers (fuel + 1) l acc = parseMembersKey (fuel + 1) rest acc := by
  simp only [parseMembers]
  rw [hskip]
  show (if ('"' : Char) = '"' then parseMembersKey (fuel + 1) rest acc else none) = _
  rw [if_pos rfl]

theorem parseMembersKey_step (fuel : Nat) (rest : Str) (acc : List (Str × Json))
    (key rest2 : Str) (hstr : parseStringBody rest = some (key, rest2)) :
    parseMembersKey fuel rest acc = parseMembersColon fuel key (skipWs rest2) acc := by
  simp only [parseMembersKey]
  rw [hstr]

theorem parseMembersColon_step (f : Nat) (key : Str) (rest3 : Str)
    (acc : List (Str × Json)) :
    parseMembersColon (f + 1) key (':' :: rest3) acc = parseMembersValue f key rest3 acc := by
  simp only [parseMembersColon]
  show (if (':' : Char) = ':' then parseMembersValue f key rest3 acc else none) = _
  rw [if_pos rfl]

theorem parseMembersValue_step (f : Nat) (key : Str) (rest3 : Str)
    (acc : List (Str × Json)) (v : Json) (rest4 : Str)
    (hval : parseValue f rest3 = some (v, rest4)) :
    parseMembersValue f key rest3 acc = parseMembersAfter f key v (skipWs rest4) acc := by
  simp only [parseMembersValue]
  rw [hval]

theorem parseMembersAfter_comma (f : Nat) (key : Str) (v : Json) (rest5 : Str)
    (acc : List (Str × Json)) :
    parseMembersAfter f key v (',' :: rest5) acc = parseMembers f rest5 (acc ++ [(key, v)]) := by
  simp only [parseMembersAfter]
  show (if (',' : Char) = ',' then parseMembers f rest5 (acc ++ [(key, v)])
    else if (',' : Char) = '}' then some (Json.jobj (acc ++ [(key, v)]), rest5) else none) = _
  rw [if_pos rfl]

theorem parseMembersAfter_close (f : Nat) (key : Str) (v : Json) (rest5 : Str)
    (acc : List (Str × Json)) :
    parseMembersAfter f key v ('}' :: rest5) acc =
      some (Json.jobj (acc ++ [(key, v)]), rest5) := by
  simp only [parseMembersAfter]
  show (if ('}' : Char) = ',' then parseMembers f rest5 (acc ++ [(key, v)])
    else if ('}' : Char) = '}' then some (Json.jobj (acc ++ [(key, v)]), rest5) else none) = _
  rw [if_neg (by decide), if_pos rfl]

theorem parseStringBody_key (k : Char) (Z : Str) (hk : escapeChar k = [k]) :
    parseStringBody (k :: '"' :: Z) = some ([k], Z) := by
  have h := parseStringBody_escape [k] Z
  rw [show escapeAll [k] ++ '"' :: Z = k :: '"' :: Z by simp [escapeAll, hk]] at h
  exact h

/-- The JSON object carried by a well-formed token payload, with the four
fields of the traversal state in source order. -/
def payloadObj (s : Str) (d i : Int) (c : Str) : Json :=
  Json.jobj [(['s'], Json.jstr s), (['d'], Json.jint d), (['i'], Json.jint i),
    (['c'], Json.jstr c)]

theorem parseValue_payload (f : Nat) (s : Str) (d i : Int) (c : Str) (rest : Str) :
    parseValue (f + 6) (serializePayload s d i c ++ rest) =
      some (payloadObj s d i c, rest) := by
  have hser : serializePayload s d i c ++ rest =
      '{' :: ('"' :: 's' :: '"' :: ':' :: '"' :: (escapeAll s ++ '"' ::
        (',' :: ('"' :: ('d' :: '"' :: (':' :: (intLit d ++ ',' ::
        ('"' :: ('i' :: '"' :: (':' :: (intLit i ++ ',' ::
        ('"' :: ('c' :: '"' :: (':' :: ('"' :: (escapeAll c ++ '"' ::
        '}' :: rest)))))))))))))))) := by
    simp [serializePayload, List.append_assoc]
  rw [hser]
  rw [show f + 6 = (f + 5) + 1 from rfl,
    parseValue_step (f + 5) _ '{' _ (skipWs_cons _ (by decide))]
  rw [parseValueBody_obj]
  rw [parseObjBranch_nonempty (f + 5) _ '"' _ (skipWs_cons _ (by decide)) (by decide)]
  -- member "s"
  rw [show f + 5 = (f + 4) + 1 from rfl,
    parseMembers_step (f + 4) _ _ _ (skipWs_cons _ (by decide))]
  rw [parseMembersKey_step _ _ _ ['s'] _ (parseStringBody_key 's' _ (by decide))]
  rw [skipWs_cons _ (by decide)]
  rw [show (f + 4) + 1 = (f + 4) + 1 from rfl,
    parseMembersColon_step (f + 4) ['s'] _ _]
  rw [parseMembersValue_step (f + 4) ['s'] _ _ (Json.jstr s) _
    (parseValue_str (f + 3) s _)]
  rw [skipWs_cons _ (by decide)]
  rw [parseMembersAfter_comma]
  -- member "d"
  rw [show f + 4 = (f + 3) + 1 from rfl,
    parseMembers_step (f + 3) _ _ _ (skipWs_cons _ (by decide))]
  rw [parseMembersKey_step _ _ _ ['d'] _ (parseStringBody_key 'd' _ (by decide))]
  rw [skipWs_cons _ (by decide)]
  rw [parseMembersColon_step (f + 3) ['d'] _ _]
  rw [parseMembersValue_step (f + 3) ['d'] _ _ (Json.jint d) _
    (parseValue_int (f + 2) d ',' _ (by decide) (by decide) (by decide) (by decide))]
  rw [skipWs_cons _ (by decide)]
  rw [parseMembersAfter_comma]
  -- member "i"
  rw [show f + 3 = (f + 2) + 1 from rfl,
    parseMembers_step (f + 2) _ _ _ (skipWs_cons _ (by decide))]
  rw [parseMembersKey_step _ _ _ ['i'] _ (parseStringBody_key 'i' _ (by decide))]
  rw [skipWs_cons _ (by decide)]
  rw [parseMembersColon_step (f + 2) ['i'] _ _]
  rw [parseMembersValue_step (f + 2) ['i'] _ _ (Json.jint i) _
    (parseValue_int (f + 1) i ',' _ (by decide) (by decide) (by decide) (by decide))]
  rw [skipWs_cons _ (by decide)]
  rw [parseMembersAfter_comma]
  -- member "c"
  rw [show f + 2 = (f + 1) + 1 from rfl,
    parseMembers_step (f + 1) _ _ _ (skipWs_cons _ (by decide))]
  rw [parseMembersKey_step _ _ _ ['c'] _ (parseStringBody_key 'c' _ (by decide))]
  rw [skipWs_cons _ (by decide)]
  rw [parseMembersColon_step (f + 1) ['c'] _ _]
  rw [parseMembersValue_step (f + 1) ['c'] _ _ (Json.jstr c) _
    (parseValue_str f c _)]
  rw [skipWs_cons _ (by decide)]
  rw [parseMembersAfter_close]
  simp [payloadObj]

theorem serializePayload_length (s : Str) (d i : Int) (c : Str) :
    5 ≤ (serializePayload s d i c).length := by
  simp [serializePayload]

theorem loads_serializePayload (s : Str) (d i : Int) (c : Str) :
    loads (serializePayload s d i c) = some (payloadObj s d i c) := by
  obtain ⟨k, hk⟩ : ∃ k, (serializePayload s d i c).length + 1 = k + 6 :=
    ⟨(serializePayload s d i c).length - 5, by have := serializePayload_length s d i c; omega⟩
  simp only [loads]
  rw [hk]
  have h := parseValue_payload k s d i c []
  rw [List.append_nil] at h
  rw [h]
  rfl

/-! ### Token codec (`make_token` / `parse_token`,
`src/v2/tsukuyomi-v2.py` lines 176-211) -/

/-- `token.split(".", 1)`: split at the first dot; `none` when there is no
dot, where the Python unpacking `blob, sig = token.split(".", 1)` raises
(caught by `parse_token`). -/
def splitDot : Str → Option (Str × Str)
  | [] => none
  | c :: rest =>
    if c = '.' then some ([], rest)
    else
      match splitDot rest with
      | some (a, b) => some (c :: a, b)
      | none => none

/-- `isinstance(x, str)` for a parsed JSON value (`obj.get` result). -/
def jsonIsStr : Option Json → Bool
  | some (Json.jstr _) => true
  | _ => false

/-- `isinstance(x, int)` for a parsed JSON value.  A Python `bool` is a
subclass of `int`, so `True`/`False` pass this check. -/
def jsonIsInt : Option Json → Bool
  | some (Json.jint _) => true
  | some (Json.jbool _) => true
  | _ => false

/-- The four `isinstance` checks of `parse_token` (lines 199-208): the
payload must be a dict whose fields `s`, `d`, `i`, `c` are a string, an
int, an int and a string.  No range check is performed on `d` or `i`. -/
def schemaOk (j : Json) : Bool :=
  match j with
  | Json.jobj kvs =>
    jsonIsStr (dictGet kvs ['s']) && jsonIsInt (dictGet kvs ['d']) &&
      jsonIsInt (dictGet kvs ['i']) && jsonIsStr (dictGet kvs ['c'])
  | _ => false

/-- `make_token` (lines 176-187): serialize the state, sign the payload,
base64url-encode the payload without padding and append `.` and the
signature. -/
def make_token (sign : Str → Str) (seed : Str) (depth idx : Int) (chain : Str) : Str :=
  rstripEq (b64encodePadded (utf8Encode (serializePayload seed depth idx chain))) ++
    '.' :: sign (serializePayload seed depth idx chain)

/-- Signature comparison and schema validation of `parse_token`
(lines 195-209): `hmac.compare_digest` then `json.loads` then the
`isinstance` checks. -/
def parse_token_payload (sign : Str → Str) (payload : Str) (sig : Str) : Option Json :=
  if sign payload = sig then
    match loads payload with
    | none => none
    | some obj => if schemaOk obj then some obj else none
  else none

/-- Base64 and UTF-8 decoding stage of `parse_token` (lines 193-194). -/
def parse_token_blob (sign : Str → Str) (blob sig : Str) : Option Json :=
  match b64decodePadded (padEq blob) with
  | none => none
  | some bytes =>
    match utf8Decode bytes with
    | none => none
    | some payload => parse_token_payload sign payload sig

/-- `parse_token` (lines 190-211).  Any failure of any stage is `none`
(the Python code catches every exception and returns `None`); on success
the parsed dict is returned. -/
def parse_token (sign : Str → Str) (token : Str) : Option Json :=
  match splitDot token with
  | none => none
  | some (blob, sig) => parse_token_blob sign blob sig

theorem splitDot_append (blob sig : Str) (hdot : '.' ∉ blob) :
    splitDot (blob ++ '.' :: sig) = some (blob, sig) := by
  induction blob with
  | nil =>
    show splitDot ('.' :: sig) = some ([], sig)
    rw [splitDot]
    rw [if_pos rfl]
  | cons c t ih =>
    have hc : c ≠ '.' := fun h => hdot (h ▸ List.mem_cons_self c t)
    have ht : '.' ∉ t := fun h => hdot (List.mem_cons_of_mem c h)
    show splitDot (c :: (t ++ '.' :: sig)) = some (c :: t, sig)
    rw [splitDot]
    rw [if_neg hc, ih ht]

theorem b64encodePadded_chars : ∀ bytes : List Nat, (∀ b ∈ bytes, b < 256) →
    ∀ x ∈ b64encodePadded bytes, x = '=' ∨ ∃ n, n < 64 ∧ x = b64char n := by
  intro bytes
  induction bytes using b64encodePadded.induct with
  | case1 =>
    intro _ x hx
    simp [b64encodePadded] at hx
  | case2 a =>
    intro h x hx
    have ha : a < 256 := h a (by simp)
    rw [b64encodePadded] at hx
    simp only [List.mem_cons, List.not_mem_nil, or_false] at hx
    rcases hx with rfl | rfl | rfl | rfl
    · exact Or.inr ⟨_, by omega, rfl⟩
    · exact Or.inr ⟨_, by omega, rfl⟩
    · exact Or.inl rfl
    · exact Or.inl rfl
  | case3 a b =>
    intro h x hx
    have ha : a < 256 := h a (by simp)
    have hb : b < 256 := h b (by simp)
    rw [b64encodePadded] at hx
    simp only [List.mem_cons, List.not_mem_nil, or_false] at hx
    rcases hx with rfl | rfl | rfl | rfl
    · exact Or.inr ⟨_, by omega, rfl⟩
    · exact Or.inr ⟨_, by omega, rfl⟩
    · exact Or.inr ⟨_, by omega, rfl⟩
    · exact Or.inl rfl
  | case4 a b c rest ih =>
    intro h x hx
    have ha : a < 256 := h a (by simp)
    have hb : b < 256 := h b (by simp)
    have hc : c < 256 := h c (by simp)
    rw [b64encodePadded] at hx
    simp only [List.mem_cons] at hx
    rcases hx with rfl | rfl | rfl | rfl | hx
    · exact Or.inr ⟨_, by omega, rfl⟩
    · exact Or.inr ⟨_, by omega, rfl⟩
    · exact Or.inr ⟨_, by omega, rfl⟩
    · exact Or.inr ⟨_, by omega, rfl⟩
    · exact ih (fun y hy => h y (by simp [hy])) x hx

theorem dot_not_in_blob (bytes : List Nat) (h : ∀ b ∈ bytes, b < 256) :
    '.' ∉ rstripEq (b64encodePadded bytes) := by
  intro hmem
  have hx := rstripEq_mem _ _ hmem
  rcases b64encodePadded_chars bytes h _ hx with heq | ⟨n, hn, heq⟩
  · exact absurd heq (by decide)
  · exact absurd heq.symm (b64char_ne_dot n hn)

theorem schemaOk_payloadObj (s : Str) (d i : Int) (c : Str) :
    schemaOk (payloadObj s d i c) = true := rfl

/-- Round trip of the full token codec: `parse_token` accepts every
output of `make_token` (under the same signing key) and returns exactly
the serialized fields.  This holds for an arbitrary signing function. -/
theorem parse_make_roundtrip (sign : Str → Str) (seed : Str) (depth idx : Int)
    (chain : Str) :
    parse_token sign (make_token sign seed depth idx chain) =
      some (payloadObj seed depth idx chain) := by
  simp only [parse_token, make_token]
  rw [splitDot_append _ _ (dot_not_in_blob _ (utf8Encode_lt_256 _))]
  show parse_token_blob sign
    (rstripEq (b64encodePadded (utf8Encode (serializePayload seed depth idx chain))))
    (sign (serializePayload seed depth idx chain)) = _
  simp only [parse_token_blob]
  rw [b64_roundtrip _ (utf8Encode_lt_256 _)]
  show (match utf8Decode (utf8Encode (serializePayload seed depth idx chain)) with
    | none => none
    | some payload => parse_token_payload sign payload
        (sign (serializePayload seed depth idx chain))) = _
  rw [utf8_roundtrip]
  show parse_token_payload sign (serializePayload seed depth idx chain)
    (sign (serializePayload seed depth idx chain)) = _
  simp only [parse_token_payload]
  rw [if_pos trivial, loads_serializePayload]
  show (if schemaOk (payloadObj seed depth idx chain) then some (payloadObj seed depth idx chain)
    else none) = _
  rw [if_pos (schemaOk_payloadObj seed depth idx chain)]

/-! ### Configuration defaults (lines 37-43 of the source; the hourly
ceiling and the codec parameters are environment-configurable, so the
budget tracker below takes the ceiling as a parameter) -/

/-- Default of `TSUKUYOMI_MAX_DEPTH`. -/
def MAX_DEPTH : Int := 12

/-- Default of `TSUKUYOMI_LINKS_PER_PAGE`. -/
def LINKS_PER_PAGE : Nat := 6

/-- Default of `TSUKUYOMI_MAX_PAGES_PER_HOUR`. -/
def MAX_PAGES_PER_CLIENT_PER_HOUR : Nat := 120

/-- Default of `TSUKUYOMI_RL_RPS` (sustained rate, tokens per second). -/
def RATE_LIMIT_RPS : ℚ := 2

/-- Default of `TSUKUYOMI_RL_BURST` (burst capacity). -/
def RATE_LIMIT_BURST : Int := 10

/-! ### Rate limiter (`allow_request`, lines 64-102) -/

/-- Per-client token-bucket state (`Bucket` dataclass, lines 64-67). -/
structure Bucket where
  tokens : ℚ
  last : ℚ

/-- The in-memory `_buckets` dict, keyed by client key. -/
def RLState := Str → Option Bucket

/-- `allow_request` (lines 87-102): first sight of a key installs a bucket
with `burst - 1` tokens and admits; otherwise the bucket is refilled by
`elapsed * rate` (capped at the burst size, with no clamping of a negative
elapsed time), `last` is advanced, and one token is consumed iff at least
one token is available. -/
def allow_request (now : ℚ) (key : Str) (m : RLState) : Bool × RLState :=
  match m key with
  | none =>
    (true, fun k => if k = key then some ⟨(RATE_LIMIT_BURST : ℚ) - 1, now⟩ else m k)
  | some b =>
    let tokens := min ((RATE_LIMIT_BURST : ℚ)) (b.tokens + (now - b.last) * RATE_LIMIT_RPS)
    if 1 ≤ tokens then
      (true, fun k => if k = key then some ⟨tokens - 1, now⟩ else m k)
    else
      (false, fun k => if k = key then some ⟨tokens, now⟩ else m k)

/-- A sequence of `allow_request` calls for one key at the given times,
returning the admission decisions in order and the final bucket map. -/
def rl_run (key : Str) : List ℚ → RLState → List Bool × RLState
  | [], m => ([], m)
  | t :: ts, m =>
    let p := allow_request t key m
    let q := rl_run key ts p.2
    (p.1 :: q.1, q.2)

/-! ### Hourly budget tracker (`within_hourly_budget`, lines 261-268) -/

/-- The in-memory `_budget` dict: a total counter map with default 0
(`_budget.get(k, 0)`), keyed by (client key, hour bucket). -/
def BudgetMap := Str × Int → Nat

/-- `within_hourly_budget` (lines 264-268): the hour bucket is
`int(time.time() // 3600)`; the counter for `(key, hour)` is incremented
unconditionally and the call admits iff the post-increment count is at
most the configured ceiling. -/
def within_hourly_budget (ceiling : Nat) (now : ℚ) (ck : Str) (m : BudgetMap) :
    Bool × BudgetMap :=
  let hour := ⌊now / 3600⌋
  let m' : BudgetMap := fun k => if k = (ck, hour) then m (ck, hour) + 1 else m k
  (m' (ck, hour) ≤ ceiling, m')

/-- A sequence of `within_hourly_budget` calls for one key. -/
def budget_run (ceiling : Nat) (ck : Str) : List ℚ → BudgetMap → List Bool × BudgetMap
  | [], m => ([], m)
  | t :: ts, m =>
    let p := within_hourly_budget ceiling t ck m
    let q := budget_run ceiling ck ts p.2
    (p.1 :: q.1, q.2)

/-! ### Bot scorer (`bot_score`, lines 218-254) -/

/-- The request attributes read by `bot_score` and the routes:
`User-Agent`, `Accept` and `Accept-Language` via `headers.get(h, "")`
(absent headers indistinguishable from empty ones, as in the source);
the two client-hint headers via `headers.get(h)` (`none` when absent);
and cookie presence (`bool(request.cookies)`). -/
structure Request where
  ua : Str
  accept : Str
  acceptLanguage : Str
  secChUA : Option Str
  secFetchMode : Option Str
  cookies : Bool

/-- The scanner/library fingerprint denylist (lines 227-230). -/
def scanner_markers : List Str :=
  ["nikto".toList, "sqlmap".toList, "acunetix".toList, "nessus".toList,
   "qualys".toList, "openvas".toList, "wpscan".toList, "masscan".toList,
   "nmap".toList, "zaproxy".toList, "burp".toList, "curl".toList,
   "python-requests".toList, "go-http-client".toList, "scrapy".toList,
   "java/".toList, "apache-httpclient".toList, "libwww".toList, "wget".toList]

/-- `str.lower()` (ASCII case folding; the denylist is pure ASCII). -/
def toLowerStr (s : Str) : Str := s.map Char.toLower

/-- Python's `needle in haystack` substring test. -/
def strContains (h n : Str) : Bool := h.tails.any (fun t => n.isPrefixOf t)

/-- Truthiness of `headers.get(h)`: present and non-empty. -/
def hintTruthy : Option Str → Bool
  | some s => !s.isEmpty
  | none => false

/-- `bot_score` (lines 218-254): additive rule table, clamped to
`[0, 10]` by `max(0, min(10, score))`. -/
def bot_score (r : Request) : Int :=
  let s1 : Int := if scanner_markers.any (fun m => strContains (toLowerStr r.ua) m) then 4 else 0
  let s2 : Int := if r.ua.isEmpty then 3 else 0
  let s3 : Int := if r.accept.isEmpty then 2 else 0
  let s4 : Int := if r.acceptLanguage.isEmpty then 1 else 0
  let s5 : Int := if hintTruthy r.secChUA then -1 else 0
  let s6 : Int := if hintTruthy r.secFetchMode then -1 else 0
  let s7 : Int := if r.cookies then 0 else 1
  max 0 (min 10 (s1 + s2 + s3 + s4 + s5 + s6 + s7))

/-! ### Traversal generator (the child-link loop of `render_honey`,
lines 342-365) -/

/-- One derived branch seed:
`sha256(f"{seed}:{depth}:{i}").hexdigest()[:12]` (line 350), with the
SHA-256 hex digest supplied as a function parameter. -/
def child_seed (sha : Str → Str) (seed : Str) (depth : Int) (i : Nat) : Str :=
  (sha (seed ++ ':' :: intLit depth ++ ':' :: natLit i)).take 12

/-- The child tokens embedded by `render_honey` (lines 342-353): none at
or beyond `MAX_DEPTH` (terminal page); otherwise one token per
`i in range(LINKS_PER_PAGE)` at depth `depth + 1` with the extended
chain `f"{chain}/{nxt_seed}"`. -/
def render_honey_children (sign sha : Str → Str) (seed : Str) (depth : Int)
    (chain : Str) : List Str :=
  if MAX_DEPTH ≤ depth then []
  else
    (List.range LINKS_PER_PAGE).map (fun i =>
      make_token sign (child_seed sha seed depth i) (depth + 1) (Int.ofNat i)
        (chain ++ '/' :: child_seed sha seed depth i))

/-! ### Routes (`index`, lines 372-381, and `honey`, lines 384-450).
The model keeps the admission control, token parsing, telemetry record
and HTTP status of each route; rendering, the artificial delay and the
SQLite write mechanics are out of scope (the spec excludes them). -/

/-- `obj["d"]`-style integer field access (well-typed after `schemaOk`;
a Python `bool` reads as 0/1). -/
def objInt (j : Option Json) : Int :=
  match j with
  | some (Json.jint n) => n
  | some (Json.jbool b) => if b then 1 else 0
  | _ => 0

/-- `obj["c"]`-style string field access (well-typed after `schemaOk`). -/
def objStr (j : Option Json) : Str :=
  match j with
  | some (Json.jstr s) => s
  | _ => []

/-- Field lookup on a parsed JSON dict. -/
def jsonGet (j : Json) (k : Str) : Option Json :=
  match j with
  | Json.jobj kvs => dictGet kvs k
  | _ => none

/-- The telemetry fields constrained by the claims: the traversal depth,
the chain and the bot score of the recorded row (lines 420-444). -/
structure HitRecord where
  depth : Int
  chain : Str
  score : Int

/-- Outcome of the `honey` route: HTTP status, emitted record (none when
the request is rejected before the telemetry point), and the two shared
maps after the call. -/
structure HoneyOut where
  status : Nat
  hit : Option HitRecord
  buckets : RLState
  budget : BudgetMap

/-- The `honey` route (lines 384-450): rate limit, then hourly budget,
then token parsing.  An invalid token is recorded with the sentinels
`depth = -1`, `chain = ""` and answered with HTTP 400; a valid token is
recorded with its decoded fields and answered with HTTP 200. -/
def honey_route (sign : Str → Str) (now : ℚ) (ceiling : Nat) (ck : Str) (token : Str)
    (req : Request) (buckets : RLState) (budget : BudgetMap) : HoneyOut :=
  let rl := allow_request now ck buckets
  if !rl.1 then ⟨429, none, rl.2, budget⟩
  else
    let bd := within_hourly_budget ceiling now ck budget
    if !bd.1 then ⟨429, none, rl.2, bd.2⟩
    else
      match parse_token sign token with
      | none => ⟨400, some ⟨-1, [], bot_score req⟩, rl.2, bd.2⟩
      | some obj =>
        ⟨200, some ⟨objInt (jsonGet obj ['d']), objStr (jsonGet obj ['c']), bot_score req⟩,
          rl.2, bd.2⟩

/-- Outcome of the `index` route. -/
structure IndexOut where
  status : Nat
  rootToken : Option Str
  buckets : RLState
  budget : BudgetMap

/-- The `index` route (lines 372-381): rate limit, then hourly budget,
then a root page carrying exactly one honey token
`make_token(seed, 0, 0, chain=seed)` (lines 324-339). -/
def index_route (sign : Str → Str) (now : ℚ) (ceiling : Nat) (ck : Str) (seed : Str)
    (buckets : RLState) (budget : BudgetMap) : IndexOut :=
  let rl := allow_request now ck buckets
  if !rl.1 then ⟨429, none, rl.2, budget⟩
  else
    let bd := within_hourly_budget ceiling now ck budget
    if !bd.1 then ⟨429, none, rl.2, bd.2⟩
    else ⟨200, some (make_token sign seed 0 0 seed), rl.2, bd.2⟩

/-! ### Rate limiter facts -/

theorem allow_request_fresh (t : ℚ) (key : Str) (m : RLState) (hfresh : m key = none) :
    (allow_request t key m).1 = true ∧
    (allow_request t key m).2 key = some ⟨9, t⟩ := by
  constructor
  · simp [allow_request, hfresh]
  · simp [allow_request, hfresh]
    norm_num [RATE_LIMIT_BURST]

theorem allow_request_same_step (t : ℚ) (key : Str) (m : RLState) (tk : ℚ)
    (hb : m key = some ⟨tk, t⟩) (h10 : tk ≤ 10) :
    allow_request t key m =
      (if 1 ≤ tk then (true, (allow_request t key m).2) else (false, (allow_request t key m).2)) ∧
    (allow_request t key m).2 key = some ⟨if 1 ≤ tk then tk - 1 else tk, t⟩ := by
  have hmin : min ((RATE_LIMIT_BURST : ℚ)) (tk + (t - t) * RATE_LIMIT_RPS) = tk := by
    rw [sub_self, zero_mul, add_zero]
    simp only [RATE_LIMIT_BURST]
    rw [min_eq_right]
    push_cast
    linarith
  constructor
  · simp only [allow_request, hb, hmin]
    by_cases h1 : 1 ≤ tk
    · rw [if_pos h1, if_pos h1]
    · rw [if_neg h1, if_neg h1]
  · simp only [allow_request, hb, hmin]
    by_cases h1 : 1 ≤ tk
    · rw [if_pos h1, if_pos h1]
      simp
    · rw [if_neg h1, if_neg h1]
      simp

theorem allow_request_half_grant (t : ℚ) (key : Str) (m : RLState)
    (hb : m key = some ⟨0, t⟩) :
    (allow_request (t + 1/2) key m).1 = true ∧
    (allow_request (t + 1/2) key m).2 key = some ⟨0, t + 1/2⟩ := by
  have hmin : min ((RATE_LIMIT_BURST : ℚ)) (0 + (t + 1/2 - t) * RATE_LIMIT_RPS) = 1 := by
    simp only [RATE_LIMIT_BURST, RATE_LIMIT_RPS]
    have : (0 : ℚ) + (t + 1/2 - t) * 2 = 1 := by ring
    rw [this]
    norm_num
  constructor
  · simp only [allow_request, hb, hmin]
    norm_num
  · simp only [allow_request, hb, hmin]
    norm_num

theorem rl_run_append (key : Str) (l1 l2 : List ℚ) (m : RLState) :
    rl_run key (l1 ++ l2) m =
      ((rl_run key l1 m).1 ++ (rl_run key l2 ((rl_run key l1 m).2)).1,
        (rl_run key l2 ((rl_run key l1 m).2)).2) := by
  induction l1 generalizing m with
  | nil => simp [rl_run]
  | cons t ts ih =>
    simp only [List.cons_append, rl_run]
    simp only [List.append_eq]
    rw [ih]

theorem rl_run_drain (key : Str) (t : ℚ) : ∀ (n : Nat) (m : RLState) (tk : ℚ),
    m key = some ⟨tk, t⟩ → tk ≤ 10 → (n : ℚ) ≤ tk →
    (rl_run key (List.replicate n t) m).1 = List.replicate n true ∧
    ((rl_run key (List.replicate n t) m).2) key = some ⟨tk - n, t⟩ := by
  intro n
  induction n with
  | zero =>
    intro m tk hb _ _
    simp [rl_run, List.replicate]
    simpa using hb
  | succ k ih =>
    intro m tk hb h10 hn
    have h1 : 1 ≤ tk := by
      have : ((k : ℚ) + 1) ≤ tk := by push_cast at hn ⊢; linarith
      have hk : (0 : ℚ) ≤ k := by positivity
      linarith
    obtain ⟨hstep, hmap⟩ := allow_request_same_step t key m tk hb h10
    rw [if_pos h1] at hstep hmap
    obtain ⟨hres, hfin⟩ := ih (allow_request t key m).2 (tk - 1) hmap (by linarith)
      (by push_cast at hn ⊢; linarith)
    rw [show List.replicate (k + 1) t = t :: List.replicate k t from List.replicate_succ t k]
    simp only [rl_run]
    rw [hstep]
    refine ⟨?_, ?_⟩
    · rw [show List.replicate (k + 1) true = true :: List.replicate k true from
        List.replicate_succ true k]
      show true :: (rl_run key (List.replicate k t) (allow_request t key m).2).1 = _
      rw [hres]
    · show (rl_run key (List.replicate k t) (allow_request t key m).2).2 key = _
      rw [hfin]
      congr 2
      push_cast
      ring

theorem rl_scenario (t0 : ℚ) (key : Str) (m : RLState) (hfresh : m key = none) :
    (rl_run key (List.replicate 11 t0 ++ [t0 + 1/2, t0 + 1/2]) m).1 =
      List.replicate 10 true ++ [false, true, false] := by
  have h11 : List.replicate 11 t0 ++ [t0 + 1/2, t0 + 1/2] =
      [t0, t0, t0, t0, t0, t0, t0, t0, t0, t0, t0, t0 + 1/2, t0 + 1/2] := by
    simp [List.replicate]
  rw [h11]
  simp only [rl_run]
  set M1 := (allow_request t0 key m).2 with hM1
  set M2 := (allow_request t0 key M1).2 with hM2
  set M3 := (allow_request t0 key M2).2 with hM3
  set M4 := (allow_request t0 key M3).2 with hM4
  set M5 := (allow_request t0 key M4).2 with hM5
  set M6 := (allow_request t0 key M5).2 with hM6
  set M7 := (allow_request t0 key M6).2 with hM7
  set M8 := (allow_request t0 key M7).2 with hM8
  set M9 := (allow_request t0 key M8).2 with hM9
  set M10 := (allow_request t0 key M9).2 with hM10
  set M11 := (allow_request t0 key M10).2 with hM11
  set M12 := (allow_request (t0 + 1/2) key M11).2 with hM12
  have f1 : (allow_request t0 key m).1 = true := (allow_request_fresh t0 key m hfresh).1
  have g1 : M1 key = some ⟨9, t0⟩ := (allow_request_fresh t0 key m hfresh).2
  have s2 := allow_request_same_step t0 key M1 9 g1 (by norm_num)
  have f2 : (allow_request t0 key M1).1 = true := by
    rw [s2.1, if_pos (show (1 : ℚ) ≤ 9 by norm_num)]
  have g2 : M2 key = some ⟨8, t0⟩ := by
    have h := s2.2
    rw [if_pos (show (1 : ℚ) ≤ 9 by norm_num)] at h
    rw [show (9 : ℚ) - 1 = 8 by norm_num] at h
    exact h
  have s3 := allow_request_same_step t0 key M2 8 g2 (by norm_num)
  have f3 : (allow_request t0 key M2).1 = true := by
    rw [s3.1, if_pos (show (1 : ℚ) ≤ 8 by norm_num)]
  have g3 : M3 key = some ⟨7, t0⟩ := by
    have h := s3.2
    rw [if_pos (show (1 : ℚ) ≤ 8 by norm_num)] at h
    rw [show (8 : ℚ) - 1 = 7 by norm_num] at h
    exact h
  have s4 := allow_request_same_step t0 key M3 7 g3 (by norm_num)
  have f4 : (allow_request t0 key M3).1 = true := by
    rw [s4.1, if_pos (show (1 : ℚ) ≤ 7 by norm_num)]
  have g4 : M4 key = some ⟨6, t0⟩ := by
    have h := s4.2
    rw [if_pos (show (1 : ℚ) ≤ 7 by norm_num)] at h
    rw [show (7 : ℚ) - 1 = 6 by norm_num] at h
    exact h
  have s5 := allow_request_same_step t0 key M4 6 g4 (by norm_num)
  have f5 : (allow_request t0 key M4).1 = true := by
    rw [s5.1, if_pos (show (1 : ℚ) ≤ 6 by norm_num)]
  have g5 : M5 key = some ⟨5, t0⟩ := by
    have h := s5.2
    rw [if_pos (show (1 : ℚ) ≤ 6 by norm_num)] at h
    rw [show (6 : ℚ) - 1 = 5 by norm_num] at h
    exact h
  have s6 := allow_request_same_step t0 key M5 5 g5 (by norm_num)
  have f6 : (allow_request t0 key M5).1 = true := by
    rw [s6.1, if_pos (show (1 : ℚ) ≤ 5 by norm_num)]
  have g6 : M6 key = some ⟨4, t0⟩ := by
    have h := s6.2
    rw [if_pos (show (1 : ℚ) ≤ 5 by norm_num)] at h
    rw [show (5 : ℚ) - 1 = 4 by norm_num] at h
    exact h
  have s7 := allow_request_same_step t0 key M6 4 g6 (by norm_num)
  have f7 : (allow_request t0 key M6).1 = true := by
    rw [s7.1, if_pos (show (1 : ℚ) ≤ 4 by norm_num)]
  have g7 : M7 key = some ⟨3, t0⟩ := by
    have h := s7.2
    rw [if_pos (show (1 : ℚ) ≤ 4 by norm_num)] at h
    rw [show (4 : ℚ) - 1 = 3 by norm_num] at h
    exact h
  have s8 := allow_request_same_step t0 key M7 3 g7 (by norm_num)
  have f8 : (allow_request t0 key M7).1 = true := by
    rw [s8.1, if_pos (show (1 : ℚ) ≤ 3 by norm_num)]
  have g8 : M8 key = some ⟨2, t0⟩ := by
    have h := s8.2
    rw [if_pos (show (1 : ℚ) ≤ 3 by norm_num)] at h
    rw [show (3 : ℚ) - 1 = 2 by norm_num] at h
    exact h
  have s9 := allow_request_same_step t0 key M8 2 g8 (by norm_num)
  have f9 : (allow_request t0 key M8).1 = true := by
    rw [s9.1, if_pos (show (1 : ℚ) ≤ 2 by norm_num)]
  have g9 : M9 key = some ⟨1, t0⟩ := by
    have h := s9.2
    rw [if_pos (show (1 : ℚ) ≤ 2 by norm_num)] at h
    rw [show (2 : ℚ) - 1 = 1 by norm_num] at h
    exact h
  have s10 := allow_request_same_step t0 key M9 1 g9 (by norm_num)
  have f10 : (allow_request t0 key M9).1 = true := by
    rw [s10.1, if_pos (show (1 : ℚ) ≤ 1 by norm_num)]
  have g10 : M10 key = some ⟨0, t0⟩ := by
    have h := s10.2
    rw [if_pos (show (1 : ℚ) ≤ 1 by norm_num)] at h
    rw [show (1 : ℚ) - 1 = 0 by norm_num] at h
    exact h
  have s11 := allow_request_same_step t0 key M10 0 g10 (by norm_num)
  have f11 : (allow_request t0 key M10).1 = false := by
    rw [s11.1, if_neg (show ¬(1 : ℚ) ≤ 0 by norm_num)]
  have g11 : M11 key = some ⟨0, t0⟩ := by
    have h := s11.2
    rw [if_neg (show ¬(1 : ℚ) ≤ 0 by norm_num)] at h
    exact h
  have f12 : (allow_request (t0 + 1/2) key M11).1 = true :=
    (allow_request_half_grant t0 key M11 g11).1
  have g12 : M12 key = some ⟨0, t0 + 1/2⟩ :=
    (allow_request_half_grant t0 key M11 g11).2
  have s13 := allow_request_same_step (t0 + 1/2) key M12 0 g12 (by norm_num)
  have f13 : (allow_request (t0 + 1/2) key M12).1 = false := by
    rw [s13.1, if_neg (show ¬(1 : ℚ) ≤ 0 by norm_num)]
  rw [f1, f2, f3, f4, f5, f6, f7, f8, f9, f10, f11, f12, f13]
  rfl

theorem allow_request_neg_elapsed (now : ℚ) (key : Str) (m : RLState) (b : Bucket)
    (hb : m key = some b) (hlt : now < b.last) :
    ∃ b' : Bucket, (allow_request now key m).2 key = some b' ∧ b'.tokens < b.tokens := by
  have hneg : (now - b.last) * RATE_LIMIT_RPS < 0 := by
    apply mul_neg_of_neg_of_pos
    · linarith
    · norm_num [RATE_LIMIT_RPS]
  have hdec : min ((RATE_LIMIT_BURST : ℚ)) (b.tokens + (now - b.last) * RATE_LIMIT_RPS) <
      b.tokens := by
    calc min ((RATE_LIMIT_BURST : ℚ)) (b.tokens + (now - b.last) * RATE_LIMIT_RPS) ≤
        b.tokens + (now - b.last) * RATE_LIMIT_RPS := min_le_right _ _
      _ < b.tokens := by linarith
  simp only [allow_request, hb]
  by_cases h1 : 1 ≤ min ((RATE_LIMIT_BURST : ℚ)) (b.tokens + (now - b.last) * RATE_LIMIT_RPS)
  · rw [if_pos h1]
    refine ⟨⟨min ((RATE_LIMIT_BURST : ℚ)) (b.tokens + (now - b.last) * RATE_LIMIT_RPS) - 1,
      now⟩, by simp, ?_⟩
    show min ((RATE_LIMIT_BURST : ℚ)) (b.tokens + (now - b.last) * RATE_LIMIT_RPS) - 1 <
      b.tokens
    linarith
  · rw [if_neg h1]
    refine ⟨⟨min ((RATE_LIMIT_BURST : ℚ)) (b.tokens + (now - b.last) * RATE_LIMIT_RPS),
      now⟩, by simp, hdec⟩

/-! ### Budget tracker facts -/

theorem within_fst (ceiling : Nat) (t : ℚ) (ck : Str) (m : BudgetMap) :
    (within_hourly_budget ceiling t ck m).1 =
      decide (m (ck, ⌊t / 3600⌋) + 1 ≤ ceiling) := by
  simp [within_hourly_budget]

theorem within_snd_self (ceiling : Nat) (t : ℚ) (ck : Str) (m : BudgetMap) :
    (within_hourly_budget ceiling t ck m).2 (ck, ⌊t / 3600⌋) =
      m (ck, ⌊t / 3600⌋) + 1 := by
  simp [within_hourly_budget]

theorem within_snd_other (ceiling : Nat) (t : ℚ) (ck : Str) (m : BudgetMap)
    (k : Str × Int) (hk : k ≠ (ck, ⌊t / 3600⌋)) :
    (within_hourly_budget ceiling t ck m).2 k = m k := by
  simp [within_hourly_budget, hk]

theorem budget_scenario (ck : Str) (t t' : ℚ) (m : BudgetMap)
    (hm : ∀ hh : Int, m (ck, hh) = 0)
    (hfl : ⌊t' / 3600⌋ = ⌊t / 3600⌋ + 1) :
    (budget_run 5 ck (List.replicate 6 t ++ [t']) m).1 =
      [true, true, true, true, true, false, true] := by
  have hexp : List.replicate 6 t ++ [t'] = [t, t, t, t, t, t, t'] := by
    simp [List.replicate]
  rw [hexp]
  simp only [budget_run]
  set B1 := (within_hourly_budget 5 t ck m).2 with hB1
  set B2 := (within_hourly_budget 5 t ck B1).2 with hB2
  set B3 := (within_hourly_budget 5 t ck B2).2 with hB3
  set B4 := (within_hourly_budget 5 t ck B3).2 with hB4
  set B5 := (within_hourly_budget 5 t ck B4).2 with hB5
  set B6 := (within_hourly_budget 5 t ck B5).2 with hB6
  have hne : ((ck, ⌊t' / 3600⌋) : Str × Int) ≠ (ck, ⌊t / 3600⌋) := by
    simp only [ne_eq, Prod.mk.injEq, not_and]
    intro _
    omega
  have g1 : B1 (ck, ⌊t / 3600⌋) = 1 := by
    rw [hB1, within_snd_self, hm]
  have g2 : B2 (ck, ⌊t / 3600⌋) = 2 := by
    rw [hB2, within_snd_self, g1]
  have g3 : B3 (ck, ⌊t / 3600⌋) = 3 := by
    rw [hB3, within_snd_self, g2]
  have g4 : B4 (ck, ⌊t / 3600⌋) = 4 := by
    rw [hB4, within_snd_self, g3]
  have g5 : B5 (ck, ⌊t / 3600⌋) = 5 := by
    rw [hB5, within_snd_self, g4]
  have g6 : B6 (ck, ⌊t / 3600⌋) = 6 := by
    rw [hB6, within_snd_self, g5]
  have f1 : (within_hourly_budget 5 t ck m).1 = true := by
    rw [within_fst, hm]
    rfl
  have f2 : (within_hourly_budget 5 t ck B1).1 = true := by
    rw [within_fst, g1]
    rfl
  have f3 : (within_hourly_budget 5 t ck B2).1 = true := by
    rw [within_fst, g2]
    rfl
  have f4 : (within_hourly_budget 5 t ck B3).1 = true := by
    rw [within_fst, g3]
    rfl
  have f5 : (within_hourly_budget 5 t ck B4).1 = true := by
    rw [within_fst, g4]
    rfl
  have f6 : (within_hourly_budget 5 t ck B5).1 = false := by
    rw [within_fst, g5]
    rfl
  have hB6' : B6 (ck, ⌊t' / 3600⌋) = 0 := by
    rw [hB6, within_snd_other _ _ _ _ _ hne, hB5, within_snd_other _ _ _ _ _ hne,
      hB4, within_snd_other _ _ _ _ _ hne, hB3, within_snd_other _ _ _ _ _ hne,
      hB2, within_snd_other _ _ _ _ _ hne, hB1, within_snd_other _ _ _ _ _ hne, hm]
  have f7 : (within_hourly_budget 5 t' ck B6).1 = true := by
    rw [within_fst, hB6']
    rfl
  rw [f1, f2, f3, f4, f5, f6, f7]

theorem parseValue_empty_obj (f : Nat) : parseValue (f + 1) ['{', '}'] = some (Json.jobj [], []) := by
  rw [parseValue_step f ['{', '}'] '{' ['}'] (by decide)]
  rw [parseValueBody_obj]
  simp only [parseObjBranch]
  rw [show skipWs ['}'] = '}' :: ([] : Str) by decide]
  show (if ('}' : Char) = '}' then some (Json.jobj [], ([] : Str)) else parseMembers f ['}'] []) = _
  rw [if_pos rfl]

theorem loads_empty_obj : loads ['{', '}'] = some (Json.jobj []) := by
  simp only [loads]
  rw [show (['{', '}'] : Str).length + 1 = 2 + 1 from rfl, parseValue_empty_obj 2]
  rfl

/-- The all-empty request of the bot-scorer claim: empty user-agent,
empty `Accept`, empty `Accept-Language`, no client hints, no cookies. -/
def emptyRequest : Request := ⟨[], [], [], none, none, false⟩

/-- A common-browser request: browser user-agent, all three headers
present, one client-hint header, cookies sent. -/
def browserRequest : Request :=
  ⟨"Mozilla/5.0 Chrome/120.0 Safari/537.36".toList, "text/html".toList,
    "en-US".toList, some ("\"Chromium\"".toList), none, true⟩

/-! ### Claims -/

/-- C1: for every traversal state with string seed and chain and
non-negative integer depth and index, decoding the token produced by
encoding the state (parse_token applied to make_token's output, under the
same signing key) succeeds and yields exactly the fields of the state. -/
theorem c1_token_roundtrip (sign : Str → Str) (seed chain : Str) (depth idx : Int)
    (_hd : 0 ≤ depth) (_hi : 0 ≤ idx) :
    parse_token sign (make_token sign seed depth idx chain) =
      some (payloadObj seed depth idx chain) ∧
    jsonGet (payloadObj seed depth idx chain) ['s'] = some (Json.jstr seed) ∧
    jsonGet (payloadObj seed depth idx chain) ['d'] = some (Json.jint depth) ∧
    jsonGet (payloadObj seed depth idx chain) ['i'] = some (Json.jint idx) ∧
    jsonGet (payloadObj seed depth idx chain) ['c'] = some (Json.jstr chain) :=
  ⟨parse_make_roundtrip sign seed depth idx chain, rfl, rfl, rfl, rfl⟩

/-- C1 witness: the round trip at a concrete state and signing key. -/
theorem c1_token_roundtrip_witness :
    0 ≤ (0 : Int) ∧ 0 ≤ (1 : Int) ∧
    parse_token (fun p => p) (make_token (fun p => p) ['a'] 0 1 ['b']) =
      some (payloadObj ['a'] 0 1 ['b']) :=
  ⟨by decide, by decide,
    (c1_token_roundtrip (fun p => p) ['a'] ['b'] 0 1 (by decide) (by decide)).1⟩

/-- C2 counterexample: a token whose correctly signed payload carries the
negative depth −1 is accepted by `parse_token` and returned as a state,
not rejected as `Invalid`: the code checks only `isinstance(..., int)`
and has no negativity check. -/
theorem c2_negative_depth_accepted :
    parse_token (fun _ => ['S']) (make_token (fun _ => ['S']) ['a'] (-1) 0 ['b']) =
      some (payloadObj ['a'] (-1) 0 ['b']) ∧
    jsonGet (payloadObj ['a'] (-1) 0 ['b']) ['d'] = some (Json.jint (-1)) :=
  ⟨parse_make_roundtrip _ _ _ _ _, rfl⟩

/-- C2 (amended): for every token string whose payload decodes (split,
base64url decode, UTF-8 decode) to a JSON value with a correct signature,
`parse_token` returns `Invalid` (`none`) whenever the schema check fails —
a non-dict payload, a missing field, or a wrong-typed field (where
Python's `isinstance(..., int)` also accepts booleans); negative depth or
index values are NOT rejected.  Totality (never raising past the
boundary) is inherent in the `Option`-valued model of the
catch-all `except`. -/
theorem c2_schema_validation (sign : Str → Str) (token blob sig : Str)
    (bytes : List Nat) (payload : Str) (obj : Json)
    (h1 : splitDot token = some (blob, sig))
    (h2 : b64decodePadded (padEq blob) = some bytes)
    (h3 : utf8Decode bytes = some payload)
    (h4 : sign payload = sig)
    (h5 : loads payload = some obj)
    (h6 : schemaOk obj = false) :
    parse_token sign token = none := by
  simp only [parse_token]
  rw [h1]
  show parse_token_blob sign blob sig = none
  simp only [parse_token_blob]
  rw [h2]
  show (match utf8Decode bytes with
    | none => none
    | some payload => parse_token_payload sign payload sig) = none
  rw [h3]
  show parse_token_payload sign payload sig = none
  simp only [parse_token_payload]
  rw [if_pos h4, h5]
  show (if schemaOk obj then some obj else none) = none
  rw [h6]
  rfl

/-- C2 witness: the signed token whose payload is the empty JSON object
`{}` (missing all four fields) is rejected. -/
theorem c2_schema_validation_witness :
    parse_token (fun _ => ([] : Str)) ['e', '3', '0', '.'] = none :=
  c2_schema_validation (fun _ => []) ['e', '3', '0', '.'] ['e', '3', '0'] []
    [123, 125] ['{', '}'] (Json.jobj []) rfl (by decide) rfl rfl loads_empty_obj rfl

/-- C3 counterexample: the request with empty user-agent, empty `Accept`,
empty `Accept-Language`, no cookies and no client hints scores 7
(3 + 2 + 1 + 1), not 10 as claimed. -/
theorem c3_empty_request_scores_seven :
    bot_score emptyRequest = 7 ∧ bot_score emptyRequest ≠ 10 := by
  constructor
  · decide
  · decide

/-- C3 (amended): the all-empty request scores exactly 7; a request with
a common browser user-agent, all three headers present, a client-hint
header and cookies scores exactly 0 (clamped at the floor); and every
request's score lies in [0, 10]. -/
theorem c3_bot_score_values :
    bot_score emptyRequest = 7 ∧ bot_score browserRequest = 0 ∧
    ∀ r : Request, 0 ≤ bot_score r ∧ bot_score r ≤ 10 := by
  refine ⟨by decide, by decide, fun r => ?_⟩
  simp only [bot_score]
  exact ⟨le_max_left _ _, max_le (by norm_num) (min_le_left _ _)⟩

/-- C4: at depth at least MAX_DEPTH the traversal generator emits no
child tokens; below MAX_DEPTH it emits exactly LINKS_PER_PAGE tokens,
each of which decodes to depth + 1 with a chain that strictly extends
the parent chain. -/
theorem c4_traversal_children (sign sha : Str → Str) (seed : Str) (depth : Int)
    (chain : Str) :
    (MAX_DEPTH ≤ depth → render_honey_children sign sha seed depth chain = []) ∧
    (depth < MAX_DEPTH →
      (render_honey_children sign sha seed depth chain).length = LINKS_PER_PAGE ∧
      ∀ tok ∈ render_honey_children sign sha seed depth chain,
        ∃ ns idx, parse_token sign tok =
            some (payloadObj ns (depth + 1) idx (chain ++ '/' :: ns)) ∧
          chain <+: chain ++ '/' :: ns ∧
          chain.length < (chain ++ '/' :: ns).length) := by
  constructor
  · intro h
    unfold render_honey_children
    rw [if_pos h]
  · intro h
    unfold render_honey_children
    rw [if_neg (not_le.mpr h)]
    refine ⟨by simp, ?_⟩
    intro tok htok
    simp only [List.mem_map, List.mem_range] at htok
    obtain ⟨i, hi, rfl⟩ := htok
    refine ⟨child_seed sha seed depth i, Int.ofNat i,
      parse_make_roundtrip sign _ _ _ _,
      ⟨'/' :: child_seed sha seed depth i, rfl⟩, ?_⟩
    rw [List.length_append, List.length_cons]
    omega

/-- C4 witness: at depth 12 (= MAX_DEPTH) no children; at depth 0 exactly
LINKS_PER_PAGE children. -/
theorem c4_traversal_children_witness :
    MAX_DEPTH ≤ (12 : Int) ∧
    render_honey_children (fun p => p) (fun p => p) [] 12 [] = [] ∧
    (0 : Int) < MAX_DEPTH ∧
    (render_honey_children (fun p => p) (fun p => p) [] 0 []).length = LINKS_PER_PAGE :=
  ⟨by decide, (c4_traversal_children (fun p => p) (fun p => p) [] 12 []).1 (by decide),
    by decide,
    ((c4_traversal_children (fun p => p) (fun p => p) [] 0 []).2 (by decide)).1⟩

/-- C5: with burst 10 and rate 2 tokens/second, a fresh client key is
admitted on exactly its first 10 immediate consecutive calls (the first
call initializing the bucket with burst − 1 tokens), the 11th immediate
call is rejected, and after waiting 0.5 seconds exactly one further call
is admitted (the next immediate call is rejected again). -/
theorem c5_rate_limiter (t0 : ℚ) (key : Str) (m : RLState) (hfresh : m key = none) :
    (allow_request t0 key m).1 = true ∧
    (allow_request t0 key m).2 key = some ⟨(RATE_LIMIT_BURST : ℚ) - 1, t0⟩ ∧
    (rl_run key (List.replicate 11 t0 ++ [t0 + 1/2, t0 + 1/2]) m).1 =
      List.replicate 10 true ++ [false, true, false] := by
  refine ⟨(allow_request_fresh t0 key m hfresh).1, ?_, rl_scenario t0 key m hfresh⟩
  rw [(allow_request_fresh t0 key m hfresh).2]
  norm_num [RATE_LIMIT_BURST]

/-- C5 witness: the scenario at time 0 on the empty bucket map. -/
theorem c5_rate_limiter_witness :
    ((fun _ => none : RLState) [] = none) ∧
    (rl_run [] (List.replicate 11 (0 : ℚ) ++ [0 + 1/2, 0 + 1/2]) (fun _ => none)).1 =
      List.replicate 10 true ++ [false, true, false] :=
  ⟨rfl, (c5_rate_limiter 0 [] (fun _ => none) rfl).2.2⟩

/-- C6 counterexample: after two `allow_request` calls (one at time 10,
then one at time 0, i.e. with a negative elapsed time), the stored bucket
holds −11 tokens: the elapsed time is not clamped and the token count is
negative after an admit call. -/
theorem c6_tokens_negative_after_call :
    (allow_request 0 ['k'] ((allow_request 10 ['k'] (fun _ => none)).2)).2 ['k'] =
      some ⟨-11, 0⟩ ∧ (-11 : ℚ) < 0 := by
  constructor
  · have h1 : (allow_request 10 ['k'] (fun _ => none : RLState)).2 ['k'] = some ⟨9, 10⟩ :=
      (allow_request_fresh 10 ['k'] (fun _ => none) rfl).2
    simp only [allow_request, h1]
    norm_num [RATE_LIMIT_BURST, RATE_LIMIT_RPS, min_def]
  · norm_num

/-- C6 (amended): the rate limiter does NOT clamp a negative elapsed
time: whenever a call observes `now` earlier than the bucket's last
refill time, the refill `tokens + (now − last) * rate` strictly decreases
the stored token count (the `min` with the burst only caps it from
above), and the stored value can become negative. -/
theorem c6_negative_elapsed_decreases (now : ℚ) (key : Str) (m : RLState) (b : Bucket)
    (hb : m key = some b) (hlt : now < b.last) :
    ∃ b' : Bucket, (allow_request now key m).2 key = some b' ∧ b'.tokens < b.tokens :=
  allow_request_neg_elapsed now key m b hb hlt

/-- C6 witness: a bucket with 5 tokens last refilled at time 10, revisited
at time 0, strictly loses tokens. -/
theorem c6_negative_elapsed_decreases_witness :
    ((fun k => if k = (['k'] : Str) then some (⟨5, 10⟩ : Bucket) else none) : RLState)
      ['k'] = some ⟨5, 10⟩ ∧
    (0 : ℚ) < 10 ∧
    ∃ b' : Bucket,
      (allow_request 0 ['k']
        (fun k => if k = (['k'] : Str) then some (⟨5, 10⟩ : Bucket) else none)).2 ['k'] =
          some b' ∧ b'.tokens < (5 : ℚ) :=
  ⟨rfl, by norm_num,
    c6_negative_elapsed_decreases 0 ['k'] _ ⟨5, 10⟩ rfl (by norm_num)⟩

/-- C7: the budget tracker increments the counter of (key, hour bucket)
on every call, including rejected ones, with the hour bucket obtained by
integer division of the time by 3600; it admits iff the post-increment
counter is at most the ceiling; with ceiling 5 the 6th call in one hour
bucket rejects and a call in the next hour bucket admits again. -/
theorem c7_budget_tracker :
    (∀ (ceiling : Nat) (now : ℚ) (ck : Str) (m : BudgetMap),
      (within_hourly_budget ceiling now ck m).2 (ck, ⌊now / 3600⌋) =
        m (ck, ⌊now / 3600⌋) + 1 ∧
      ((within_hourly_budget ceiling now ck m).1 = true ↔
        m (ck, ⌊now / 3600⌋) + 1 ≤ ceiling)) ∧
    (∀ (ck : Str) (t t' : ℚ) (m : BudgetMap), (∀ hh : Int, m (ck, hh) = 0) →
      ⌊t' / 3600⌋ = ⌊t / 3600⌋ + 1 →
      (budget_run 5 ck (List.replicate 6 t ++ [t']) m).1 =
        [true, true, true, true, true, false, true]) := by
  constructor
  · intro ceiling now ck m
    refine ⟨within_snd_self _ _ _ _, ?_⟩
    rw [within_fst]
    exact ⟨of_decide_eq_true, fun h => decide_eq_true h⟩
  · intro ck t t' m hm hfl
    exact budget_scenario ck t t' m hm hfl

/-- C7 witness: the ceiling-5 scenario at times 0 (hour bucket 0) and
3600 (hour bucket 1) on the zero counter map. -/
theorem c7_budget_tracker_witness :
    (∀ hh : Int, (fun _ => 0 : BudgetMap) ([], hh) = 0) ∧
    ⌊(3600 : ℚ) / 3600⌋ = ⌊(0 : ℚ) / 3600⌋ + 1 ∧
    (budget_run 5 [] (List.replicate 6 (0 : ℚ) ++ [3600]) (fun _ => 0)).1 =
      [true, true, true, true, true, false, true] :=
  ⟨fun _ => rfl, by norm_num,
    c7_budget_tracker.2 [] 0 3600 (fun _ => 0) (fun _ => rfl) (by norm_num)⟩

/-- C8: every admitted `GET /<token>` request whose token is malformed or
signature-invalid (`parse_token` returns `Invalid`) is answered with HTTP
status 400, and a HitRecord is still emitted with the sentinel values
depth −1 and empty chain. -/
theorem c8_invalid_token_recorded (sign : Str → Str) (now : ℚ) (ceiling : Nat)
    (ck token : Str) (req : Request) (buckets : RLState) (budget : BudgetMap)
    (hrl : (allow_request now ck buckets).1 = true)
    (hbd : (within_hourly_budget ceiling now ck budget).1 = true)
    (hbad : parse_token sign token = none) :
    (honey_route sign now ceiling ck token req buckets budget).status = 400 ∧
    (honey_route sign now ceiling ck token req buckets budget).hit =
      some ⟨-1, [], bot_score req⟩ := by
  simp only [honey_route, hrl, hbd, hbad, Bool.not_true, Bool.false_eq_true, if_false]
  constructor <;> trivial

/-- C8 witness: an admitted request with the dotless (hence malformed)
token `"x"` on fresh maps. -/
theorem c8_invalid_token_recorded_witness :
    (allow_request 0 [] (fun _ => none)).1 = true ∧
    (within_hourly_budget 5 0 [] (fun _ => 0)).1 = true ∧
    parse_token (fun p => p) ['x'] = none ∧
    (honey_route (fun p => p) 0 5 [] ['x'] emptyRequest (fun _ => none)
      (fun _ => 0)).status = 400 ∧
    (honey_route (fun p => p) 0 5 [] ['x'] emptyRequest (fun _ => none)
      (fun _ => 0)).hit = some ⟨-1, [], bot_score emptyRequest⟩ := by
  have h1 : (allow_request 0 [] (fun _ => none : RLState)).1 = true :=
    (allow_request_fresh 0 [] (fun _ => none) rfl).1
  have h2 : (within_hourly_budget 5 0 [] (fun _ => 0 : BudgetMap)).1 = true := by
    rw [within_fst]
    rfl
  have h3 : parse_token (fun p => p) ['x'] = none := rfl
  obtain ⟨h4, h5⟩ := c8_invalid_token_recorded (fun p => p) 0 5 [] ['x'] emptyRequest
    (fun _ => none) (fun _ => 0) h1 h2 h3
  exact ⟨h1, h2, h3, h4, h5⟩

/-- C9 counterexample: `parse_token` performs no depth bound check, so a
correctly signed token at depth 13 > MAX_DEPTH = 12 is accepted and
returns a state with depth exceeding MAX_DEPTH. -/
theorem c9_deep_token_accepted :
    parse_token (fun _ => ['S']) (make_token (fun _ => ['S']) ['x'] 13 0 ['c']) =
      some (payloadObj ['x'] 13 0 ['c']) ∧
    ¬(13 : Int) ≤ MAX_DEPTH :=
  ⟨parse_make_roundtrip _ _ _ _ _, by decide⟩

/-- C9 (amended): `parse_token` accepts a correctly signed token of ANY
depth (no bound check is applied at decode time); however, the traversal
itself respects the bound: at depth at least MAX_DEPTH `render_honey`
emits no child tokens (terminal page), and every child token it emits
below MAX_DEPTH encodes depth + 1, which is at most MAX_DEPTH — so all
server-generated tokens stay within the bound. -/
theorem c9_depth_bound (sign sha : Str → Str) (seed : Str) (depth idx : Int)
    (chain : Str) :
    parse_token sign (make_token sign seed depth idx chain) =
      some (payloadObj seed depth idx chain) ∧
    (MAX_DEPTH ≤ depth → render_honey_children sign sha seed depth chain = []) ∧
    (depth < MAX_DEPTH → ∀ tok ∈ render_honey_children sign sha seed depth chain,
      ∃ ns i2, parse_token sign tok =
          some (payloadObj ns (depth + 1) i2 (chain ++ '/' :: ns)) ∧
        depth + 1 ≤ MAX_DEPTH) := by
  refine ⟨parse_make_roundtrip _ _ _ _ _, ?_, ?_⟩
  · intro h
    unfold render_honey_children
    rw [if_pos h]
  · intro h tok htok
    unfold render_honey_children at htok
    rw [if_neg (not_le.mpr h)] at htok
    simp only [List.mem_map, List.mem_range] at htok
    obtain ⟨i, hi, rfl⟩ := htok
    exact ⟨_, _, parse_make_roundtrip _ _ _ _ _, by omega⟩

/-- C9 witness: a depth-20 state is terminal (no children emitted). -/
theorem c9_depth_bound_witness :
    MAX_DEPTH ≤ (20 : Int) ∧
    render_honey_children (fun p => p) (fun p => p) ['w'] 20 [] = [] :=
  ⟨by decide,
    (c9_depth_bound (fun p => p) (fun p => p) ['w'] 20 0 []).2.1 (by decide)⟩

/-- C10: a request rejected by the rate limiter leaves the hourly budget
map unchanged: in both routes the rate-limit check precedes the budget
check and returns early, so a rate-limited request consumes no hourly
budget for its client key. -/
theorem c10_rate_limited_preserves_budget (sign : Str → Str) (now : ℚ) (ceiling : Nat)
    (ck token seed : Str) (req : Request) (buckets : RLState) (budget : BudgetMap)
    (hrl : (allow_request now ck buckets).1 = false) :
    (index_route sign now ceiling ck seed buckets budget).budget = budget ∧
    (honey_route sign now ceiling ck token req buckets budget).budget = budget := by
  constructor
  · simp only [index_route, hrl, Bool.not_false, if_true]
  · simp only [honey_route, hrl, Bool.not_false, if_true]

/-- C10 witness: a drained bucket (zero tokens, revisited at the same
instant) rejects, and both routes leave the budget map unchanged. -/
theorem c10_rate_limited_preserves_budget_witness :
    (allow_request 5 ['k']
      (fun k => if k = (['k'] : Str) then some (⟨0, 5⟩ : Bucket) else none)).1 = false ∧
    (index_route (fun p => p) 5 5 ['k'] ['s']
      (fun k => if k = (['k'] : Str) then some (⟨0, 5⟩ : Bucket) else none)
      (fun _ => 0)).budget = (fun _ => 0 : BudgetMap) ∧
    (honey_route (fun p => p) 5 5 ['k'] ['x'] emptyRequest
      (fun k => if k = (['k'] : Str) then some (⟨0, 5⟩ : Bucket) else none)
      (fun _ => 0)).budget = (fun _ => 0 : BudgetMap) := by
  have hrl : (allow_request 5 ['k']
      (fun k => if k = (['k'] : Str) then some (⟨0, 5⟩ : Bucket) else none)).1 = false := by
    obtain ⟨hs, _⟩ := allow_request_same_step 5 ['k']
      (fun k => if k = (['k'] : Str) then some (⟨0, 5⟩ : Bucket) else none) 0 rfl
      (by norm_num)
    rw [hs, if_neg (by norm_num)]
  obtain ⟨h1, h2⟩ := c10_rate_limited_preserves_budget (fun p => p) 5 5 ['k'] ['x'] ['s']
    emptyRequest (fun k => if k = (['k'] : Str) then some (⟨0, 5⟩ : Bucket) else none)
    (fun _ => 0) hrl
  exact ⟨hrl, h1, h2⟩
